/-
Verification of the node-reference generator of `armory_tools`
(`make_node_reference.py`).

The Python script walks an externally supplied registry of node categories,
parses each node's docstring with an inline `@tag` grammar and assembles a
markdown document.  This file gives a shallow embedding of that script:

* the document tree of the `markdownmaker` library is embedded as the
  inductive types `Inline` and `Block`;
* the docstring processing of `generate_node_documentation` is embedded as
  an `Except Unit (List Block)`-valued function: the Python code raises an
  uncaught `ValueError` when the tuple unpacking of `part[n:].split(":", 1)`
  fails (payload without a colon), which aborts the whole run, and this is
  modelled by the `.error ()` result;
* the Python code appends items to list objects that are already referenced
  from `UnorderedList` blocks inserted into the global document, so a list
  block's final content is the full collection of that kind's items.  The
  embedding therefore first computes the final item lists and then places
  the blocks at the position where the source inserts them (first tag of the
  kind); this is observationally the same document.

Python string primitives (`split`, `rstrip`, `startswith`, slicing,
`capitalize`, `lower`, `endswith`, `join`) are embedded structurally on the
character lists underlying Lean `String`s, with Python's semantics
(all separators used by the script are single characters).
-/
import Mathlib

set_option maxRecDepth 10000

namespace ArmoryRef

/-! ### The markdownmaker document tree (data model) -/

/-- Inline markdown content, mirroring the `markdownmaker` inline nodes used
by the script: plain text, `Bold`, `Italic`, `InlineCode` and `Link`. -/
inductive Inline where
  | text (s : String)
  | bold (i : Inline)
  | italic (i : Inline)
  | code (s : String)
  | link (label : Inline) (url : String)
  deriving Repr, DecidableEq

/-- An item of the `category_items` list of `run()`: either a
`Bold(section.capitalize())` heading or a nested `UnorderedList` of the
section's category links. -/
inductive CatListItem where
  | bold (text : String)
  | ulist (links : List Inline)
  deriving Repr, DecidableEq

/-- Block-level markdown content: `Header` (with its level), `Paragraph`,
`UnorderedList`, `Image`, `Quote`, `HorizontalRule`, and the
"Node Categories" listing (the one `UnorderedList(category_items)` whose
items mix bold section names with nested link lists). -/
inductive Block where
  | header (level : Nat) (text : String)
  | para (content : Inline)
  | ulist (items : List Inline)
  | image (url : String) (alt : String)
  | quote (content : Inline)
  | hrule
  | catList (items : List CatListItem)
  deriving Repr, DecidableEq

/-! ### Python string primitives -/

/-- The whitespace characters recognised by Python's `str.split()` and
`str.rstrip()` (ASCII range). -/
def pyIsSpace (c : Char) : Bool :=
  c = ' ' || c = '\t' || c = '\n' || c = '\r' || c = Char.ofNat 11 || c = Char.ofNat 12

/-- Core of Python `s.split(sep)` for a single-character separator, on the
underlying character list.  Always returns a non-empty list of groups;
`"".split(sep) == [""]`. -/
def pySplitCore (sep : Char) : List Char → List (List Char)
  | [] => [[]]
  | c :: cs =>
    let r := pySplitCore sep cs
    if c = sep then [] :: r
    else
      match r with
      | [] => [[c]]
      | g :: gs => (c :: g) :: gs

/-- Python `s.split(sep)` for a single-character separator. -/
def pySplit (s : String) (sep : Char) : List String :=
  (pySplitCore sep s.data).map String.mk

/-- Core of Python `s.split()` (split on whitespace runs): group the
non-whitespace runs. -/
def pySplitWsCore : List Char → List (List Char)
  | [] => [[]]
  | c :: cs =>
    let r := pySplitWsCore cs
    if pyIsSpace c then [] :: r
    else
      match r with
      | [] => [[c]]
      | g :: gs => (c :: g) :: gs

/-- Python `s.split()` (no argument): split on whitespace runs, discarding
empty pieces; `"".split() == []`. -/
def pySplitWs (s : String) : List String :=
  ((pySplitWsCore s.data).filter (· ≠ [])).map String.mk

/-- Python `sep.join(xs)`. -/
def pyJoin (sep : String) (xs : List String) : String :=
  String.mk (List.intercalate sep.data (xs.map String.data))

/-- The description/item normalisation used throughout the script:
`" ".join(text.split()).replace("\n", "")`.  Replacing a one-character
pattern by the empty string is removal of that character. -/
def normWs (s : String) : String :=
  String.mk ((pyJoin " " (pySplitWs s)).data.filter (· ≠ '\n'))

/-- Remove the trailing characters satisfying `p` (Python `rstrip`). -/
def dropTrailing (p : Char → Bool) (l : List Char) : List Char :=
  (l.reverse.dropWhile p).reverse

/-- Python `s.rstrip("\n")`. -/
def rstripNewlines (s : String) : String :=
  String.mk (dropTrailing (· = '\n') s.data)

/-- Python `s.rstrip()` (default: whitespace). -/
def pyRstrip (s : String) : String :=
  String.mk (dropTrailing pyIsSpace s.data)

/-- Python `s.startswith(pre)`. -/
def pyStartsWith (s : String) (pre : String) : Bool :=
  pre.data.isPrefixOf s.data

/-- Python `s.endswith(suf)`. -/
def pyEndsWith (s : String) (suf : String) : Bool :=
  suf.data.isSuffixOf s.data

/-- Python `s[n:]` (slicing by character index). -/
def pyDrop (s : String) (n : Nat) : String :=
  String.mk (s.data.drop n)

/-- Python `s.lower()`. -/
def pyLower (s : String) : String :=
  String.mk (s.data.map Char.toLower)

/-- Python `s.capitalize()`: first character upper-cased, the rest
lower-cased. -/
def pyCapitalize (s : String) : String :=
  match s.data with
  | [] => ""
  | c :: cs => String.mk (c.toUpper :: cs.map Char.toLower)

/-- Python `s.replace(a, b)` for one-character `a` and `b`. -/
def pyReplaceChar (s : String) (a b : Char) : String :=
  String.mk (s.data.map (fun c => if c = a then b else c))

/-- Python `name, rest = s.split(":", 1)`: `none` when `s` has no colon (the
tuple unpacking of the single-element list then raises `ValueError`),
otherwise the text before the first colon and everything after it. -/
def splitFirstColon (s : String) : Option (String × String) :=
  match breakAtColon s.data with
  | none => none
  | some (a, b) => some (String.mk a, String.mk b)
where
  breakAtColon : List Char → Option (List Char × List Char)
    | [] => none
    | c :: cs =>
      if c = ':' then some ([], cs)
      else
        match breakAtColon cs with
        | none => none
        | some (a, b) => some (c :: a, b)

/-! ### Link and anchor construction -/

/-- Base URL for Python node sources (`PY_NODE_DIR`). -/
def PY_NODE_DIR : String :=
  "https://github.com/armory3d/armory/blob/master/blender/arm/logicnode/"

/-- Base URL for Haxe node sources (`HX_NODE_DIR`). -/
def HX_NODE_DIR : String :=
  "https://github.com/armory3d/armory/blob/master/Sources/armory/logicnode/"

/-- Base URL for node screenshots (`IMG_DIR`). -/
def IMG_DIR : String :=
  "https://github.com/armory3d/armory_wiki_images/raw/master/logic_nodes/"

/-- `get_anchor`: the GitHub anchor id for a link
(`"#" + text.lower().replace(" ", "-")`). -/
def get_anchor (text : String) : String :=
  "#" ++ pyReplaceChar (pyLower text) ' ' '-'

/-- `make_node_link`: a link to a node, labelled with the node name as
inline code, targeting its anchor. -/
def make_node_link (nodename : String) : Inline :=
  .link (.code nodename) (get_anchor nodename)

/-- Modelled from the spec: the markdownmaker library (an external pip
dependency, not in this repository) renders inline code with backticks
(§4.6), used where the script interpolates an `InlineCode` into an f-string. -/
def inlineCodeStr (s : String) : String :=
  "`" ++ s ++ "`"

/-- Modelled from the spec: markdownmaker renders `Bold` as `**text**`
(§4.6), used where the script interpolates `Bold(...)` into an f-string. -/
def boldStr (s : String) : String :=
  "**" ++ s ++ "**"

/-- Modelled from the spec: markdownmaker renders `Link` as `[label](url)`
(§4.6), used where the script interpolates a `Link` into an f-string. -/
def linkStr (label url : String) : String :=
  "[" ++ label ++ "](" ++ url ++ ")"

/-- `str(make_node_link(name))` as interpolated into f-strings. -/
def make_node_link_str (nodename : String) : String :=
  linkStr (inlineCodeStr nodename) (get_anchor nodename)

/-! ### Node data (supplied by the external registry) -/

/-- The per-node data the script reads: `nodeitem.nodetype` (the type name,
also used for the screenshot file), `nodeitem.label`, and from the resolved
node type its `bl_idname`, `__module__` and `__doc__` (the docstring,
`none` when absent). -/
structure NodeItem where
  nodetype : String
  label : String
  bl_idname : String
  module : String
  doc : Option String
  deriving Repr

/-! ### Docstring processing (`generate_node_documentation`) -/

/-- The "See also:" section header block,
`Paragraph(Bold("See also:"))`. -/
def seeHdr : Block :=
  .para (.bold (.text "See also:"))

/-- Does this docstring fragment enter one of the two see-branches of the
first loop (`part.startswith("seeNode ")` / `elif part.startswith("see ")`)? -/
def isSeeFragment (part : String) : Bool :=
  pyStartsWith part "seeNode " || pyStartsWith part "see "

/-- The item appended to `see_list` for one see-fragment: an italic node
link for `seeNode <name>` (payload `part[8:].rstrip()`), an italic plain
text for `see <text>` (payload `part[4:].rstrip()`). -/
def seeItem (part : String) : Inline :=
  if pyStartsWith part "seeNode " then
    .italic (make_node_link (pyRstrip (pyDrop part 8)))
  else
    .italic (.text (pyRstrip (pyDrop part 4)))

/-- The final content of `see_list`: the first loop of
`generate_node_documentation` runs over ALL fragments of
`doc.split("@")` (including the pre-`@` description fragment) and appends
one item per see-fragment, in order. -/
def seeItems (parts : List String) : List Inline :=
  parts.filterMap fun part =>
    if isSeeFragment part then some (seeItem part) else none

/-- The blocks contributed by the first loop: on the first see-fragment the
script inserts `Paragraph(Bold("See also:"))` and the (aliased, finally
fully populated) `UnorderedList(see_list)`; nothing otherwise.  The whole
first loop runs before the image is added. -/
def seeBlocks (parts : List String) : List Block :=
  if (seeItems parts).isEmpty then []
  else [seeHdr, .ulist (seeItems parts)]

/-- The three tag kinds of the second loop that own a section
(input/output/option). -/
inductive TagKind where
  | input
  | output
  | option
  deriving Repr, DecidableEq

/-- The tag text each kind's branch tests with `startswith`. -/
def kindTag : TagKind → String
  | .input => "input "
  | .output => "output "
  | .option => "option "

/-- The slice offset of each kind's payload (`part[6:]` / `part[7:]`). -/
def kindDropLen : TagKind → Nat
  | .input => 6
  | .output => 7
  | .option => 7

/-- The section header text of each kind. -/
def kindHeaderText : TagKind → String
  | .input => "Inputs:"
  | .output => "Outputs:"
  | .option => "Options:"

/-- The section header block of a kind,
`Paragraph(Bold("Inputs:" / "Outputs:" / "Options:"))`. -/
def kindHdr (k : TagKind) : Block :=
  .para (.bold (.text (kindHeaderText k)))

/-- Which section-owning branch of the second loop a fragment enters
(`if part.startswith("input ")` / `elif "output "` / `elif "option "`);
`none` for fragments entering no such branch. -/
def partKind (part : String) : Option TagKind :=
  if pyStartsWith part "input " then some .input
  else if pyStartsWith part "output " then some .output
  else if pyStartsWith part "option " then some .option
  else none

/-- The item appended for one fragment of kind `k`:
`socket_name, description = part[n:].split(":", 1)` followed by
`f"{InlineCode(socket_name)}: {description}"` with the description
whitespace-normalised; `none` when the split has no colon (the script then
raises `ValueError`). -/
def tagItem (k : TagKind) (part : String) : Option Inline :=
  match splitFirstColon (pyDrop part (kindDropLen k)) with
  | none => none
  | some (name, description) =>
      some (.text (inlineCodeStr name ++ ": " ++ normWs description))

/-- The final content of the `input_list` / `output_list` / `option_list`
of kind `k`: one item per fragment of that kind, in fragment order (the
second loop also runs over ALL fragments, the description fragment
included). -/
def kindItems (k : TagKind) (parts : List String) : List Inline :=
  parts.filterMap fun part =>
    if partKind part = some k then tagItem k part else none

/-- The `has_inputs` / `has_outputs` / `has_options` bookkeeping: a kind is
appended to the first-occurrence order the first time a fragment of that
kind is seen. -/
def addKind (order : List TagKind) (k : TagKind) : List TagKind :=
  if k ∈ order then order else order ++ [k]

/-- The deprecation links loop:
`for alternative in alternatives.split(","): if alternative == "":
continue; links.append(str(make_node_link(alternative)))`. -/
def collectAltLinks : List String → List String
  | [] => []
  | a :: rest =>
    if a = "" then collectAltLinks rest
    else make_node_link_str a :: collectAltLinks rest

/-- The deprecation message normalisation: whitespace-collapse, then append
a final period when non-empty and not already ending in one. -/
def normMessage (message : String) : String :=
  let message := normWs message
  if !pyEndsWith message "." && message ≠ "" then message ++ "." else message

/-- The full text of the deprecation `Quote` composed from a
`deprecated <alternatives>:<message>` payload (lines 143–159 of the
script):  message normalisation, link collection, the optional
"Please use the following node(s) instead: ..." sentence, and the fixed
boilerplate with the bold "DEPRECATED." marker. -/
def deprecationText (alternatives message : String) : String :=
  let message := normMessage message
  let links := collectAltLinks (pySplit alternatives ',')
  let message :=
    if links.length > 0 then
      ("Please use the following node(s) instead: " ++ pyJoin ", " links ++ ".")
        ++ " " ++ message
    else message
  boldStr "DEPRECATED."
    ++ " This node is deprecated and will be removed in future versions of Armory. "
    ++ message

/-- The second loop of `generate_node_documentation`, as a state machine
over the fragments: it accumulates the first-occurrence order of the
section kinds (the `has_*` flags plus the insertion positions) and the
content of the deprecation note (`deprecation_note.content`, last
`deprecated` tag wins).  A fragment of kind input/output/option/deprecated
whose payload has no colon makes the tuple unpacking raise `ValueError`,
aborting the run: `.error ()`. -/
def loop2 : List String → List TagKind → Option String →
    Except Unit (List TagKind × Option String)
  | [], order, dep => .ok (order, dep)
  | part :: rest, order, dep =>
    if pyStartsWith part "input " then
      match splitFirstColon (pyDrop part 6) with
      | none => .error ()
      | some _ => loop2 rest (addKind order .input) dep
    else if pyStartsWith part "output " then
      match splitFirstColon (pyDrop part 7) with
      | none => .error ()
      | some _ => loop2 rest (addKind order .output) dep
    else if pyStartsWith part "option " then
      match splitFirstColon (pyDrop part 7) with
      | none => .error ()
      | some _ => loop2 rest (addKind order .option) dep
    else if pyStartsWith part "deprecated " then
      match splitFirstColon (pyDrop part 11) with
      | none => .error ()
      | some (alternatives, message) =>
          loop2 rest order (some (deprecationText alternatives message))
    else loop2 rest order dep

/-- The blocks of the deprecation `Optional()` placeholder, which the
script adds before the description paragraph: nothing when no `deprecated`
tag set a content, otherwise the composed `Quote`. -/
def depBlocks : Option String → List Block
  | none => []
  | some m => [.quote (.text m)]

/-- The description paragraph `Paragraph(node_description)` where
`node_description = " ".join(doc_parts[0].rstrip("\n").split()).replace("\n", "")`.
It is added unconditionally (also when the description is empty). -/
def descriptionBlock (parts : List String) : Block :=
  .para (.text (normWs (rstripNewlines parts.headI)))

/-- The node screenshot block:
`Image(url=IMG_DIR + category.name.lower() + "/" + nodeitem.nodetype + ".jpg",
alt_text=nodeitem.label + " node")`. -/
def imgBlock (nodeitem : NodeItem) (categoryName : String) : Block :=
  .image (IMG_DIR ++ pyLower categoryName ++ "/" ++ nodeitem.nodetype ++ ".jpg")
    (nodeitem.label ++ " node")

/-- The section blocks of the second loop: for each section kind, in
first-occurrence order, the header paragraph and the (finally fully
populated) `UnorderedList`. -/
def sectionBlocks (order : List TagKind) (parts : List String) : List Block :=
  order.flatMap fun k => [kindHdr k, .ulist (kindItems k parts)]

/-- The sources paragraph: the Python link joins the module path's dot
components from the third onward with "/" (`nodetype.__module__.split(".")[2:]`)
and appends ".py"; the Haxe link drops the first two characters of
`bl_idname` unconditionally (`nodetype.bl_idname[2:]`, "Discard LN prefix")
and appends ".hx". -/
def sourcesBlock (nodeitem : NodeItem) : Block :=
  let node_file_py := pyJoin "/" ((pySplit nodeitem.module '.').drop 2) ++ ".py"
  let node_file_hx := pyDrop nodeitem.bl_idname 2 ++ ".hx"
  .para (.text (boldStr "Sources:" ++ " "
    ++ linkStr "Python" (PY_NODE_DIR ++ node_file_py) ++ " | "
    ++ linkStr "Haxe" (HX_NODE_DIR ++ node_file_hx)))

/-- `generate_node_documentation(nodeitem, category)`, as the sequence of
blocks it adds to the document.  When the docstring is `None`, the entire
body is skipped and nothing is added (in particular no image and no sources
paragraph).  Otherwise the document receives, in order: the deprecation
placeholder (rendered only if some `deprecated` tag filled it), the
description paragraph, the "See also" section of the first loop, the
screenshot image, the input/output/option sections of the second loop (in
first-occurrence order), and the sources paragraph.  An uncaught
`ValueError` in the second loop aborts the run before the output file is
written: `.error ()`. -/
def generate_node_documentation (nodeitem : NodeItem) (categoryName : String) :
    Except Unit (List Block) :=
  match nodeitem.doc with
  | none => .ok []
  | some doc =>
    let doc_parts := pySplit doc '@'
    match loop2 doc_parts [] none with
    | .error e => .error e
    | .ok (order, dep) =>
        .ok (depBlocks dep
          ++ [descriptionBlock doc_parts]
          ++ seeBlocks doc_parts
          ++ [imgBlock nodeitem categoryName]
          ++ sectionBlocks order doc_parts
          ++ [sourcesBlock nodeitem])

/-! ### The category registry and `run()` -/

/-- A node category as the script reads it: name, description, the active
nodes (`category.get_all_nodes()`) and the deprecated nodes
(`category.deprecated_nodes`), each in the registry's declared order. -/
structure ArmNodeCategory where
  name : String
  description : String
  nodes : List NodeItem
  deprecated_nodes : List NodeItem
  deriving Repr

/-- The external registry: `arm_nodes.category_items`, an ordered mapping
from section name to the section's ordered category list. -/
structure Registry where
  sections : List (String × List ArmNodeCategory)
  deriving Repr

/-- Modelled from the spec: `arm_nodes.get_all_categories()` belongs to the
external armory add-on, not to this repository; per the spec the main pass
visits "every category returned by the registry in its declared order",
i.e. the categories of all sections in declared order. -/
def get_all_categories (reg : Registry) : List ArmNodeCategory :=
  (reg.sections.map Prod.snd).flatten

/-- The `category_items` listing of `run()`: for every section with a
non-empty category list (`if len(section_categories) > 0`), a bold
capitalised section name followed by an unordered list with one
`Link(c.name, get_anchor(c.name))` per category of the section.  The test
is on the section's category count, not on the categories' node counts. -/
def categoryListingItems (sections : List (String × List ArmNodeCategory)) :
    List CatListItem :=
  sections.flatMap fun sc =>
    if sc.2.length > 0 then
      [.bold (pyCapitalize sc.1),
       .ulist (sc.2.map fun c => .link (.text c.name) (get_anchor c.name))]
    else []

/-- Python's string comparison: lexicographic on the code points.  (The
lemma `labelLe_iff` below identifies it with the `≤` of `String`.) -/
def charListLe : List Char → List Char → Bool
  | [], _ => true
  | _ :: _, [] => false
  | c :: cs, d :: ds => if c = d then charListLe cs ds else decide (c < d)

/-- The sort key comparison `lambda n: n.label` of the main pass. -/
def labelLe (a b : NodeItem) : Bool :=
  charListLe a.label.data b.label.data

/-- The node order of the main pass:
`sorted(itertools.chain(category.get_all_nodes(), category.deprecated_nodes),
key=lambda n: n.label)` — active and deprecated nodes merged, then a stable
sort by label (Python compares strings lexicographically by code point).
Python's `sorted` is a stable sort, and every stable sort by the same total
preorder produces the same list, so it is embedded as a stable insertion
sort by label. -/
def sortNodes (category : ArmNodeCategory) : List NodeItem :=
  List.insertionSort (fun a b => labelLe a b = true)
    (category.nodes ++ category.deprecated_nodes)

/-- The blocks the main pass adds for a list of nodes: per node a
`Header(nodeitem.label)` followed by its `generate_node_documentation`
output; a `ValueError` aborts the run. -/
def nodesBlocks (categoryName : String) : List NodeItem → Except Unit (List Block)
  | [] => .ok []
  | n :: rest =>
    match generate_node_documentation n categoryName with
    | .error e => .error e
    | .ok bs =>
      match nodesBlocks categoryName rest with
      | .error e => .error e
      | .ok bss => .ok ((Block.header 3 n.label :: bs) ++ bss)

/-- The blocks the main pass adds for one category: its header, its
description paragraph when the description is non-empty
(`if category.description != ""`), then the sorted nodes' subtrees.  There
is no emptiness check on the category. -/
def categoryBlocks (category : ArmNodeCategory) : Except Unit (List Block) :=
  match nodesBlocks category.name (sortNodes category) with
  | .error e => .error e
  | .ok bs =>
    .ok (Block.header 2 category.name
      :: ((if category.description ≠ "" then
            [Block.para (.text category.description)]
          else []) ++ bs))

/-- The main category pass over all categories. -/
def allCategoryBlocks : List ArmNodeCategory → Except Unit (List Block)
  | [] => .ok []
  | c :: rest =>
    match categoryBlocks c with
    | .error e => .error e
    | .ok bs =>
      match allCategoryBlocks rest with
      | .error e => .error e
      | .ok bss => .ok (bs ++ bss)

/-- The fixed intro blocks of `run()`: title, the two italic boilerplate
paragraphs (the second with the externally supplied version string) and a
horizontal rule. -/
def introBlocks (version : String) : List Block :=
  [.header 1 "Logic Nodes Reference",
   .para (.italic (.text
     ("This document was generated automatically. Please do not edit this"
      ++ " page directly, instead change the docstrings of the nodes in their"
      ++ " "
      ++ linkStr "Python files"
          "https://github.com/armory3d/armory/tree/master/blender/arm/logicnode"
      ++ " or the "
      ++ linkStr "generator script"
          "https://github.com/armory3d/armory_tools/blob/master/make_node_reference.py"
      ++ " and "
      ++ linkStr "open a pull request"
          "https://github.com/armory3d/armory/wiki/contribute#creating-a-pull-request"
      ++ ". Thank you for contributing to this reference!"))),
   .para (.italic (.text
     ("This reference was built for " ++ boldStr ("Armory " ++ version) ++ "."))),
   .hrule]

/-- `run()`: the whole document as the script builds it — intro blocks, the
"Node Categories" header and listing, then the main category pass. -/
def runBlocks (reg : Registry) (version : String) : Except Unit (List Block) :=
  match allCategoryBlocks (get_all_categories reg) with
  | .error e => .error e
  | .ok bs =>
    .ok (introBlocks version
      ++ [Block.header 2 "Node Categories",
          Block.catList (categoryListingItems reg.sections)]
      ++ bs)

/-! ### Decidable equality for run results -/

instance instDecEqExcept {ε α : Type} [DecidableEq ε] [DecidableEq α] :
    DecidableEq (Except ε α)
  | .error a, .error b =>
    if h : a = b then .isTrue (by rw [h])
    else .isFalse (fun hh => by cases hh; exact h rfl)
  | .error _, .ok _ => .isFalse (fun h => Except.noConfusion h)
  | .ok _, .error _ => .isFalse (fun h => Except.noConfusion h)
  | .ok a, .ok b =>
    if h : a = b then .isTrue (by rw [h])
    else .isFalse (fun hh => by cases hh; exact h rfl)

/-! ### Derived notions used to state the claims -/

/-- The tag fragments of a docstring in the sense of the specification's
annotation grammar: the fragments after the first `@` delimiter (the text
before it is the description). -/
def specTagFragments (doc : String) : List String :=
  (pySplit doc '@').tail

/-- The sequence of section-owning tag kinds of the fragments, in textual
order. -/
def kindSeq (parts : List String) : List TagKind :=
  parts.filterMap partKind

/-- The distinct elements of a kind sequence, in order of first
appearance. -/
def firstOccList : List TagKind → List TagKind
  | [] => []
  | k :: ks => k :: (firstOccList ks).filter (· ≠ k)

/-- Recognise a section header block and name its kind. -/
def headerKindOf (b : Block) : Option TagKind :=
  if b = kindHdr .input then some TagKind.input
  else if b = kindHdr .output then some TagKind.output
  else if b = kindHdr .option then some TagKind.option
  else none

/-- `tagItem` with a placeholder for the malformed case; whenever
`generate_node_documentation` succeeds, every section fragment is
well-formed and the placeholder is never used. -/
def tagItemD (k : TagKind) (part : String) : Inline :=
  (tagItem k part).getD (.text "")

/-- Is a block an image block? -/
def isImageBlock : Block → Bool
  | .image _ _ => true
  | _ => false

/-- Is a block a header block (of any level)? -/
def isHeaderBlock : Block → Bool
  | .header _ _ => true
  | _ => false

/-- The blocks of a successful run (`[]` for an aborted one). -/
def okBlocks : Except Unit (List Block) → List Block
  | .ok bs => bs
  | .error _ => []

/-- Extract the text of a level-3 header (the node headers of the main
pass). -/
def headerLabel3 : Block → Option String
  | .header 3 s => some s
  | _ => none

/-! ### Helper lemmas about the second loop and the section order -/

theorem loop2_nil (order : List TagKind) (dep : Option String) :
    loop2 [] order dep = .ok (order, dep) := rfl

/-- A successful second loop computes the first-occurrence bookkeeping of
the fragments' kind sequence. -/
theorem loop2_ok_order :
    ∀ (parts : List String) (order : List TagKind) (dep : Option String)
      (res : List TagKind × Option String),
      loop2 parts order dep = .ok res →
      res.1 = (kindSeq parts).foldl addKind order := by
  intro parts
  induction parts with
  | nil =>
    intro order dep res h
    simp only [loop2] at h
    cases h
    simp [kindSeq]
  | cons p rest ih =>
    intro order dep res h
    simp only [loop2] at h
    by_cases h1 : pyStartsWith p "input "
    · simp only [h1, if_true] at h
      cases hs : splitFirstColon (pyDrop p 6) with
      | none => rw [hs] at h; cases h
      | some v =>
        rw [hs] at h
        have := ih _ _ _ h
        simp [kindSeq, List.filterMap_cons, partKind, h1, this]
    · simp only [h1, if_false] at h
      by_cases h2 : pyStartsWith p "output "
      · simp only [h2, if_true] at h
        cases hs : splitFirstColon (pyDrop p 7) with
        | none => rw [hs] at h; cases h
        | some v =>
          rw [hs] at h
          have := ih _ _ _ h
          simp [kindSeq, List.filterMap_cons, partKind, h1, h2, this]
      · simp only [h2, if_false] at h
        by_cases h3 : pyStartsWith p "option "
        · simp only [h3, if_true] at h
          cases hs : splitFirstColon (pyDrop p 7) with
          | none => rw [hs] at h; cases h
          | some v =>
            rw [hs] at h
            have := ih _ _ _ h
            simp [kindSeq, List.filterMap_cons, partKind, h1, h2, h3, this]
        · simp only [h3, if_false] at h
          by_cases h4 : pyStartsWith p "deprecated "
          · simp only [h4, if_true] at h
            cases hs : splitFirstColon (pyDrop p 11) with
            | none => rw [hs] at h; cases h
            | some v =>
              rw [hs] at h
              have := ih _ _ _ h
              simp [kindSeq, List.filterMap_cons, partKind, h1, h2, h3, this]
          · simp only [h4, if_false] at h
            have := ih _ _ _ h
            simp [kindSeq, List.filterMap_cons, partKind, h1, h2, h3, this]

/-- A successful second loop means every section fragment's payload had a
colon. -/
theorem loop2_ok_wf :
    ∀ (parts : List String) (order : List TagKind) (dep : Option String)
      (res : List TagKind × Option String),
      loop2 parts order dep = .ok res →
      ∀ p ∈ parts, ∀ k, partKind p = some k →
        (splitFirstColon (pyDrop p (kindDropLen k))).isSome := by
  intro parts
  induction parts with
  | nil => intro _ _ _ _ p hp; cases hp
  | cons q rest ih =>
    intro order dep res h p hp k hk
    simp only [loop2] at h
    by_cases h1 : pyStartsWith q "input "
    · simp only [h1, if_true] at h
      cases hs : splitFirstColon (pyDrop q 6) with
      | none => rw [hs] at h; cases h
      | some v =>
        rw [hs] at h
        rcases List.mem_cons.mp hp with rfl | hp'
        · have : partKind p = some TagKind.input := by simp [partKind, h1]
          rw [this] at hk; cases hk
          simp [kindDropLen, hs]
        · exact ih _ _ _ h p hp' k hk
    · simp only [h1, if_false] at h
      by_cases h2 : pyStartsWith q "output "
      · simp only [h2, if_true] at h
        cases hs : splitFirstColon (pyDrop q 7) with
        | none => rw [hs] at h; cases h
        | some v =>
          rw [hs] at h
          rcases List.mem_cons.mp hp with rfl | hp'
          · have : partKind p = some TagKind.output := by simp [partKind, h1, h2]
            rw [this] at hk; cases hk
            simp [kindDropLen, hs]
          · exact ih _ _ _ h p hp' k hk
      · simp only [h2, if_false] at h
        by_cases h3 : pyStartsWith q "option "
        · simp only [h3, if_true] at h
          cases hs : splitFirstColon (pyDrop q 7) with
          | none => rw [hs] at h; cases h
          | some v =>
            rw [hs] at h
            rcases List.mem_cons.mp hp with rfl | hp'
            · have : partKind p = some TagKind.option := by simp [partKind, h1, h2, h3]
              rw [this] at hk; cases hk
              simp [kindDropLen, hs]
            · exact ih _ _ _ h p hp' k hk
        · simp only [h3, if_false] at h
          by_cases h4 : pyStartsWith q "deprecated "
          · simp only [h4, if_true] at h
            cases hs : splitFirstColon (pyDrop q 11) with
            | none => rw [hs] at h; cases h
            | some v =>
              rw [hs] at h
              rcases List.mem_cons.mp hp with rfl | hp'
              · have : partKind p = none := by simp [partKind, h1, h2, h3]
                rw [this] at hk; cases hk
              · exact ih _ _ _ h p hp' k hk
          · simp only [h4, if_false] at h
            rcases List.mem_cons.mp hp with rfl | hp'
            · have : partKind p = none := by simp [partKind, h1, h2, h3]
              rw [this] at hk; cases hk
            · exact ih _ _ _ h p hp' k hk

/-- Folding the first-occurrence bookkeeping extends the accumulator by the
not-yet-seen kinds, in order of first appearance. -/
theorem foldl_addKind_eq (ks : List TagKind) :
    ∀ acc : List TagKind,
      ks.foldl addKind acc = acc ++ (firstOccList ks).filter (· ∉ acc) := by
  induction ks with
  | nil => intro acc; simp [firstOccList]
  | cons k ks ih =>
    intro acc
    rw [List.foldl_cons, ih (addKind acc k)]
    by_cases hk : k ∈ acc
    · have hacc : addKind acc k = acc := by simp [addKind, hk]
      rw [hacc]
      simp only [firstOccList]
      rw [List.filter_cons_of_neg (by simp [hk])]
      congr 1
      rw [List.filter_filter]
      apply List.filter_congr
      intro x _
      by_cases hx : x = k
      · subst hx; simp [hk]
      · simp [hx]
    · have hacc : addKind acc k = acc ++ [k] := by simp [addKind, hk]
      rw [hacc]
      simp only [firstOccList]
      rw [List.filter_cons_of_pos (by simp [hk])]
      rw [List.append_assoc, List.singleton_append]
      congr 2
      rw [List.filter_filter]
      apply List.filter_congr
      intro x _
      by_cases hx : x = k
      · subst hx; simp
      · simp [hx, List.mem_append]

/-- The first-occurrence bookkeeping, started empty, computes exactly the
distinct kinds in order of first appearance. -/
theorem foldl_addKind_firstOcc (ks : List TagKind) :
    ks.foldl addKind [] = firstOccList ks := by
  rw [foldl_addKind_eq]
  simp

theorem mem_firstOccList {k : TagKind} :
    ∀ {ks : List TagKind}, k ∈ firstOccList ks ↔ k ∈ ks := by
  intro ks
  induction ks with
  | nil => simp [firstOccList]
  | cons q ks ih =>
    simp only [firstOccList, List.mem_cons, List.mem_filter]
    constructor
    · rintro (rfl | ⟨hmem, _⟩)
      · exact .inl rfl
      · exact .inr (ih.mp hmem)
    · rintro (rfl | hmem)
      · exact .inl rfl
      · by_cases hq : k = q
        · exact .inl hq
        · exact .inr ⟨ih.mpr hmem, by simp [hq]⟩

theorem nodup_firstOccList : ∀ ks : List TagKind, (firstOccList ks).Nodup := by
  intro ks
  induction ks with
  | nil => simp [firstOccList]
  | cons q ks ih =>
    simp only [firstOccList, List.nodup_cons]
    refine ⟨fun hq => ?_, ih.filter _⟩
    have := (List.mem_filter.mp hq).2
    simp at this

/-! ### Structure of a successful node subtree -/

/-- A successful `generate_node_documentation` produces exactly the
deprecation blocks, the description paragraph, the see-section, the image,
the input/output/option sections and the sources paragraph, in this
order. -/
theorem generate_ok_decomp (n : NodeItem) (cname doc : String) (bs : List Block)
    (hdoc : n.doc = some doc) (hok : generate_node_documentation n cname = .ok bs) :
    ∃ order dep,
      loop2 (pySplit doc '@') [] none = .ok (order, dep) ∧
      bs = depBlocks dep ++ [descriptionBlock (pySplit doc '@')]
        ++ seeBlocks (pySplit doc '@') ++ [imgBlock n cname]
        ++ sectionBlocks order (pySplit doc '@') ++ [sourcesBlock n] := by
  simp only [generate_node_documentation, hdoc] at hok
  cases hl : loop2 (pySplit doc '@') [] none with
  | error e => rw [hl] at hok; cases hok
  | ok res =>
    rw [hl] at hok
    cases res with
    | mk order dep =>
      simp only [Except.ok.injEq] at hok
      exact ⟨order, dep, rfl, hok.symm⟩

/-- The first loop's items are one per see-fragment, in fragment order. -/
theorem seeItems_eq (parts : List String) :
    seeItems parts = (parts.filter isSeeFragment).map seeItem := by
  induction parts with
  | nil => rfl
  | cons p rest ih =>
    unfold seeItems at ih ⊢
    rw [List.filterMap_cons]
    by_cases hp : isSeeFragment p
    · rw [List.filter_cons_of_pos (by simp [hp]), List.map_cons, ← ih]
      simp [hp]
    · rw [List.filter_cons_of_neg (by simp [hp]), ← ih]
      simp [hp]

/-- A see-fragment among the parts makes the see-item list non-empty. -/
theorem seeItems_ne_nil {parts : List String} {p : String}
    (hp : p ∈ parts) (hsee : isSeeFragment p = true) :
    (seeItems parts).isEmpty = false := by
  have : seeItem p ∈ seeItems parts := by
    unfold seeItems
    exact List.mem_filterMap.mpr ⟨p, hp, by rw [hsee]; rfl⟩
  cases h : seeItems parts with
  | nil => rw [h] at this; cases this
  | cons a l => rfl

/-- With no see-fragment the see-item list is empty. -/
theorem seeItems_eq_nil {parts : List String}
    (h : ∀ p ∈ parts, isSeeFragment p = false) :
    seeItems parts = [] := by
  unfold seeItems
  induction parts with
  | nil => rfl
  | cons p rest ih =>
    rw [List.filterMap_cons]
    have hp := h p (List.mem_cons_self p rest)
    rw [hp]
    simp only [Bool.false_eq_true, if_false]
    exact ih (fun q hq => h q (List.mem_cons_of_mem p hq))

/-- When the second loop succeeded, each kind's item list renders exactly
the fragments of that kind, in order. -/
theorem kindItems_eq_of_wf (k : TagKind) (parts : List String)
    (hwf : ∀ p ∈ parts, partKind p = some k →
      (splitFirstColon (pyDrop p (kindDropLen k))).isSome) :
    kindItems k parts =
      (parts.filter (fun p => partKind p = some k)).map (tagItemD k) := by
  induction parts with
  | nil => rfl
  | cons p rest ih =>
    have hrest : ∀ q ∈ rest, partKind q = some k →
        (splitFirstColon (pyDrop q (kindDropLen k))).isSome :=
      fun q hq => hwf q (List.mem_cons_of_mem p hq)
    by_cases hp : partKind p = some k
    · have hsome := hwf p (List.mem_cons_self p rest) hp
      cases hs : splitFirstColon (pyDrop p (kindDropLen k)) with
      | none => rw [hs] at hsome; cases hsome
      | some v =>
        have hti : tagItem k p = some (.text (inlineCodeStr v.1 ++ ": " ++ normWs v.2)) := by
          unfold tagItem
          rw [hs]
        have htd : tagItemD k p = .text (inlineCodeStr v.1 ++ ": " ++ normWs v.2) := by
          unfold tagItemD
          rw [hti]
          rfl
        unfold kindItems at ih ⊢
        rw [List.filterMap_cons, List.filter_cons_of_pos (by simp [hp]),
          List.map_cons, htd, ← ih hrest]
        simp [hp, hti]
    · unfold kindItems at ih ⊢
      rw [List.filterMap_cons, List.filter_cons_of_neg (by simp [hp]), ← ih hrest]
      simp [hp]

/-! ### Classifying the blocks of each segment -/

theorem kindHdr_ne_seeHdr (k : TagKind) : kindHdr k ≠ seeHdr := by
  cases k <;> decide

theorem headerKindOf_kindHdr (k : TagKind) : headerKindOf (kindHdr k) = some k := by
  cases k <;> decide

theorem headerKindOf_seeHdr : headerKindOf seeHdr = none := by decide

theorem kindHdr_inj {k k' : TagKind} (h : kindHdr k = kindHdr k') : k = k' := by
  cases k <;> cases k' <;> revert h <;> decide

theorem mem_depBlocks {b : Block} {dep : Option String} (hb : b ∈ depBlocks dep) :
    ∃ s, b = .quote (.text s) := by
  cases dep with
  | none => cases hb
  | some m =>
    rcases List.mem_singleton.mp hb with rfl
    exact ⟨m, rfl⟩

theorem mem_seeBlocks {b : Block} {parts : List String} (hb : b ∈ seeBlocks parts) :
    b = seeHdr ∨ ∃ its, b = .ulist its := by
  unfold seeBlocks at hb
  by_cases he : (seeItems parts).isEmpty
  · rw [if_pos he] at hb; cases hb
  · rw [if_neg he] at hb
    rcases List.mem_cons.mp hb with rfl | hb'
    · exact .inl rfl
    · rcases List.mem_singleton.mp hb' with rfl
      exact .inr ⟨_, rfl⟩

theorem mem_sectionBlocks {b : Block} {order : List TagKind} {parts : List String}
    (hb : b ∈ sectionBlocks order parts) :
    (∃ k, k ∈ order ∧ b = kindHdr k) ∨ ∃ its, b = .ulist its := by
  unfold sectionBlocks at hb
  rcases List.mem_flatMap.mp hb with ⟨k, hk, hbk⟩
  rcases List.mem_cons.mp hbk with rfl | hbk'
  · exact .inl ⟨k, hk, rfl⟩
  · rcases List.mem_singleton.mp hbk' with rfl
    exact .inr ⟨_, rfl⟩

theorem kindHdr_mem_sectionBlocks {k : TagKind} {order : List TagKind}
    {parts : List String} (hk : k ∈ order) :
    kindHdr k ∈ sectionBlocks order parts := by
  unfold sectionBlocks
  exact List.mem_flatMap.mpr ⟨k, hk, List.mem_cons_self _ _⟩

theorem textPara_ne_kindHdr (s : String) (k : TagKind) :
    Block.para (.text s) ≠ kindHdr k := by
  cases k <;> exact fun h => Inline.noConfusion (Block.para.inj h)

theorem textPara_ne_seeHdr (s : String) : Block.para (.text s) ≠ seeHdr :=
  fun h => Inline.noConfusion (Block.para.inj h)

theorem ulist_ne_kindHdr (its : List Inline) (k : TagKind) :
    Block.ulist its ≠ kindHdr k := by
  cases k <;> exact fun h => Block.noConfusion h

theorem ulist_ne_seeHdr (its : List Inline) : Block.ulist its ≠ seeHdr :=
  fun h => Block.noConfusion h

theorem quote_ne_kindHdr (i : Inline) (k : TagKind) : Block.quote i ≠ kindHdr k := by
  cases k <;> exact fun h => Block.noConfusion h

theorem quote_ne_seeHdr (i : Inline) : Block.quote i ≠ seeHdr :=
  fun h => Block.noConfusion h

theorem image_ne_kindHdr (u a : String) (k : TagKind) :
    Block.image u a ≠ kindHdr k := by
  cases k <;> exact fun h => Block.noConfusion h

theorem image_ne_seeHdr (u a : String) : Block.image u a ≠ seeHdr :=
  fun h => Block.noConfusion h

/-- The sources paragraph, spelled out: the Python URL joins the module
path's dot components from the third onward with "/" and appends ".py"; the
Haxe URL drops the first two characters of the internal identifier and
appends ".hx". -/
theorem sourcesBlock_eq (n : NodeItem) :
    sourcesBlock n = .para (.text (boldStr "Sources:" ++ " "
      ++ linkStr "Python"
          (PY_NODE_DIR ++ (pyJoin "/" ((pySplit n.module '.').drop 2) ++ ".py"))
      ++ " | "
      ++ linkStr "Haxe" (HX_NODE_DIR ++ (pyDrop n.bl_idname 2 ++ ".hx")))) := rfl

theorem sourcesBlock_ne_kindHdr (n : NodeItem) (k : TagKind) :
    sourcesBlock n ≠ kindHdr k := by
  rw [sourcesBlock_eq]
  exact textPara_ne_kindHdr _ k

theorem sourcesBlock_ne_seeHdr (n : NodeItem) : sourcesBlock n ≠ seeHdr := by
  rw [sourcesBlock_eq]
  exact textPara_ne_seeHdr _

theorem headerKindOf_eq_none {b : Block} (h : ∀ k : TagKind, b ≠ kindHdr k) :
    headerKindOf b = none := by
  unfold headerKindOf
  rw [if_neg (h .input), if_neg (h .output), if_neg (h .option)]

/-! ### Header extraction and header counts per segment -/

theorem filterMap_headerKindOf_depBlocks (dep : Option String) :
    (depBlocks dep).filterMap headerKindOf = [] := by
  rw [List.filterMap_eq_nil_iff]
  intro b hb
  rcases mem_depBlocks hb with ⟨s, rfl⟩
  exact headerKindOf_eq_none (fun k => quote_ne_kindHdr _ k)

theorem filterMap_headerKindOf_seeBlocks (parts : List String) :
    (seeBlocks parts).filterMap headerKindOf = [] := by
  rw [List.filterMap_eq_nil_iff]
  intro b hb
  rcases mem_seeBlocks hb with rfl | ⟨its, rfl⟩
  · exact headerKindOf_eq_none (fun k => fun h => kindHdr_ne_seeHdr k h.symm)
  · exact headerKindOf_eq_none (fun k => ulist_ne_kindHdr _ k)

theorem filterMap_headerKindOf_sectionBlocks (order : List TagKind)
    (parts : List String) :
    (sectionBlocks order parts).filterMap headerKindOf = order := by
  induction order with
  | nil => rfl
  | cons q rest ih =>
    unfold sectionBlocks at ih ⊢
    rw [List.flatMap_cons, List.filterMap_append, ih, List.filterMap_cons,
      List.filterMap_cons, headerKindOf_kindHdr,
      headerKindOf_eq_none (fun k => ulist_ne_kindHdr _ k)]
    rfl

theorem countP_kindHdr_sectionBlocks (k : TagKind) (order : List TagKind)
    (parts : List String) :
    (sectionBlocks order parts).countP (fun b => b == kindHdr k) =
      order.count k := by
  induction order with
  | nil => rfl
  | cons q rest ih =>
    unfold sectionBlocks at ih ⊢
    rw [List.flatMap_cons, List.countP_append, ih, List.countP_cons,
      List.countP_cons, List.countP_nil, List.count_cons]
    by_cases hq : q = k
    · subst hq
      have h2 : ((Block.ulist (kindItems q parts) == kindHdr q) = false) :=
        beq_eq_false_iff_ne.mpr (ulist_ne_kindHdr _ q)
      simp [h2]
      omega
    · have h1 : ((kindHdr q == kindHdr k) = false) :=
        beq_eq_false_iff_ne.mpr (fun h => hq (kindHdr_inj h))
      have h2 : ((Block.ulist (kindItems q parts) == kindHdr k) = false) :=
        beq_eq_false_iff_ne.mpr (ulist_ne_kindHdr _ k)
      have h3 : ((q == k) = false) := beq_eq_false_iff_ne.mpr hq
      have h4 : ((k == q) = false) := beq_eq_false_iff_ne.mpr (fun h => hq h.symm)
      simp [h1, h2, h3, h4]

theorem countP_seeHdr_sectionBlocks (order : List TagKind) (parts : List String) :
    (sectionBlocks order parts).countP (fun b => b == seeHdr) = 0 := by
  rw [List.countP_eq_zero]
  intro b hb
  rcases mem_sectionBlocks hb with ⟨k, _, rfl⟩ | ⟨its, rfl⟩
  · simp [kindHdr_ne_seeHdr k]
  · simp [ulist_ne_seeHdr its]

/-! ### Further loop lemmas -/

theorem partKind_none_startsWith {p : String} (h : partKind p = none) :
    pyStartsWith p "input " = false ∧ pyStartsWith p "output " = false ∧
      pyStartsWith p "option " = false := by
  unfold partKind at h
  by_cases h1 : pyStartsWith p "input "
  · rw [if_pos h1] at h; cases h
  · rw [if_neg h1] at h
    by_cases h2 : pyStartsWith p "output "
    · rw [if_pos h2] at h; cases h
    · rw [if_neg h2] at h
      by_cases h3 : pyStartsWith p "option "
      · rw [if_pos h3] at h; cases h
      · exact ⟨by simp [h1], by simp [h2], by simp [h3]⟩

/-- With no section fragments and no `deprecated` fragments, the second
loop changes nothing and succeeds. -/
theorem loop2_no_tags :
    ∀ (parts : List String) (order : List TagKind) (dep : Option String),
      (∀ p ∈ parts, partKind p = none ∧ pyStartsWith p "deprecated " = false) →
      loop2 parts order dep = .ok (order, dep) := by
  intro parts
  induction parts with
  | nil => intro order dep _; rfl
  | cons p rest ih =>
    intro order dep h
    have hp := h p (List.mem_cons_self p rest)
    rcases partKind_none_startsWith hp.1 with ⟨h1, h2, h3⟩
    simp only [loop2, h1, h2, h3, hp.2, Bool.false_eq_true, if_false]
    exact ih order dep (fun q hq => h q (List.mem_cons_of_mem p hq))

theorem seeBlocks_of_any {parts : List String}
    (h : parts.any isSeeFragment = true) :
    seeBlocks parts = [seeHdr, .ulist ((parts.filter isSeeFragment).map seeItem)] := by
  rcases List.any_eq_true.mp h with ⟨p, hp, hsee⟩
  have hne := seeItems_ne_nil hp hsee
  unfold seeBlocks
  rw [if_neg (by simp [hne]), seeItems_eq]

theorem seeBlocks_of_none {parts : List String}
    (h : parts.any isSeeFragment = false) :
    seeBlocks parts = [] := by
  have hall : ∀ p ∈ parts, isSeeFragment p = false := by
    intro p hp
    rcases hb : isSeeFragment p with _ | _
    · rfl
    · exact absurd (List.any_eq_true.mpr ⟨p, hp, hb⟩) (by simp [h])
  unfold seeBlocks
  rw [seeItems_eq_nil hall]
  rfl

theorem headerKindOf_descriptionBlock (parts : List String) :
    headerKindOf (descriptionBlock parts) = none :=
  headerKindOf_eq_none (fun k => textPara_ne_kindHdr _ k)

theorem headerKindOf_imgBlock (n : NodeItem) (cname : String) :
    headerKindOf (imgBlock n cname) = none :=
  headerKindOf_eq_none (fun k => image_ne_kindHdr _ _ k)

theorem headerKindOf_sourcesBlock (n : NodeItem) :
    headerKindOf (sourcesBlock n) = none := by
  rw [sourcesBlock_eq]
  exact headerKindOf_eq_none (fun k => textPara_ne_kindHdr _ k)

theorem partKind_input_facts {p : String} (h : partKind p = some TagKind.input) :
    pyStartsWith p "input " = true := by
  unfold partKind at h
  cases h1 : pyStartsWith p "input " with
  | true => rfl
  | false =>
    exfalso
    rw [h1] at h
    simp only [Bool.false_eq_true, if_false] at h
    by_cases h2 : pyStartsWith p "output " = true
    · rw [if_pos h2] at h; cases h
    · rw [if_neg h2] at h
      by_cases h3 : pyStartsWith p "option " = true
      · rw [if_pos h3] at h; cases h
      · rw [if_neg h3] at h; cases h

theorem partKind_output_facts {p : String} (h : partKind p = some TagKind.output) :
    pyStartsWith p "input " = false ∧ pyStartsWith p "output " = true := by
  unfold partKind at h
  cases h1 : pyStartsWith p "input " with
  | true => rw [h1] at h; simp only [if_pos rfl] at h; cases h
  | false =>
    rw [h1] at h
    simp only [Bool.false_eq_true, if_false] at h
    cases h2 : pyStartsWith p "output " with
    | true => exact ⟨rfl, rfl⟩
    | false =>
      exfalso
      rw [h2] at h
      simp only [Bool.false_eq_true, if_false] at h
      by_cases h3 : pyStartsWith p "option " = true
      · rw [if_pos h3] at h; cases h
      · rw [if_neg h3] at h; cases h

theorem partKind_option_facts {p : String} (h : partKind p = some TagKind.option) :
    pyStartsWith p "input " = false ∧ pyStartsWith p "output " = false ∧
      pyStartsWith p "option " = true := by
  unfold partKind at h
  cases h1 : pyStartsWith p "input " with
  | true => rw [h1] at h; simp only [if_pos rfl] at h; cases h
  | false =>
    rw [h1] at h
    simp only [Bool.false_eq_true, if_false] at h
    cases h2 : pyStartsWith p "output " with
    | true => rw [h2] at h; simp only [if_pos rfl] at h; cases h
    | false =>
      rw [h2] at h
      simp only [Bool.false_eq_true, if_false] at h
      cases h3 : pyStartsWith p "option " with
      | true => exact ⟨rfl, rfl, rfl⟩
      | false =>
        exfalso
        rw [h3] at h
        simp only [Bool.false_eq_true, if_false] at h
        cases h

/-- A fragment that starts with `deprecated ` starts with none of the three
section tags (their first characters differ). -/
theorem startsWith_deprecated_not_kind {p : String}
    (h : pyStartsWith p "deprecated " = true) :
    pyStartsWith p "input " = false ∧ pyStartsWith p "output " = false ∧
      pyStartsWith p "option " = false := by
  unfold pyStartsWith at h ⊢
  cases hd : p.data with
  | nil =>
    rw [hd] at h
    simp [List.isPrefixOf] at h
  | cons c cs =>
    rw [hd] at h
    simp only [List.isPrefixOf, Bool.and_eq_true, beq_iff_eq] at h
    rcases h with ⟨hc, _⟩
    refine ⟨?_, ?_, ?_⟩ <;>
      simp [List.isPrefixOf, ← hc]

/-- When no fragment starts with `deprecated `, the second loop leaves the
deprecation note unchanged. -/
theorem loop2_dep_const :
    ∀ (parts : List String) (order : List TagKind) (dep : Option String)
      (res : List TagKind × Option String),
      loop2 parts order dep = .ok res →
      (∀ p ∈ parts, pyStartsWith p "deprecated " = false) →
      res.2 = dep := by
  intro parts
  induction parts with
  | nil =>
    intro order dep res h _
    simp only [loop2] at h
    cases h
    rfl
  | cons p rest ih =>
    intro order dep res h hno
    have hp := hno p (List.mem_cons_self p rest)
    have hrest := fun q hq => hno q (List.mem_cons_of_mem p hq)
    simp only [loop2] at h
    by_cases h1 : pyStartsWith p "input " = true
    · simp only [h1, if_true] at h
      cases hs : splitFirstColon (pyDrop p 6) with
      | none => rw [hs] at h; cases h
      | some v => rw [hs] at h; exact ih _ _ _ h hrest
    · simp only [h1, if_false] at h
      by_cases h2 : pyStartsWith p "output " = true
      · simp only [h2, if_true] at h
        cases hs : splitFirstColon (pyDrop p 7) with
        | none => rw [hs] at h; cases h
        | some v => rw [hs] at h; exact ih _ _ _ h hrest
      · simp only [h2, if_false] at h
        by_cases h3 : pyStartsWith p "option " = true
        · simp only [h3, if_true] at h
          cases hs : splitFirstColon (pyDrop p 7) with
          | none => rw [hs] at h; cases h
          | some v => rw [hs] at h; exact ih _ _ _ h hrest
        · simp only [h3, if_false] at h
          rw [hp] at h
          simp only [Bool.false_eq_true, if_false] at h
          exact ih _ _ _ h hrest

/-- The sequence of `Inputs:`/`Outputs:`/`Options:` headers of a successful
subtree is exactly the docstring's kind sequence deduplicated in order of
first appearance — each kind's header stands at that kind's first fragment
relative to the other kinds. -/
theorem generate_ok_headers_firstOcc (n : NodeItem) (cname doc : String)
    (bs : List Block) (hdoc : n.doc = some doc)
    (hok : generate_node_documentation n cname = .ok bs) :
    bs.filterMap headerKindOf = firstOccList (kindSeq (pySplit doc '@')) := by
  rcases generate_ok_decomp n cname doc bs hdoc hok with ⟨order, dep, hl, rfl⟩
  have horder : order = firstOccList (kindSeq (pySplit doc '@')) := by
    have h := loop2_ok_order _ _ _ _ hl
    rw [foldl_addKind_firstOcc] at h
    exact h
  rw [List.filterMap_append, List.filterMap_append, List.filterMap_append,
    List.filterMap_append, List.filterMap_append,
    filterMap_headerKindOf_depBlocks, filterMap_headerKindOf_seeBlocks,
    filterMap_headerKindOf_sectionBlocks, horder]
  simp [List.filterMap_cons, headerKindOf_descriptionBlock,
    headerKindOf_imgBlock, headerKindOf_sourcesBlock]

/-- Every successful subtree starts with the deprecation area (quote blocks
only) followed directly by the description paragraph. -/
theorem generate_ok_desc_decomp (n : NodeItem) (cname doc : String)
    (bs : List Block) (hdoc : n.doc = some doc)
    (hok : generate_node_documentation n cname = .ok bs) :
    ∃ D B, bs = D ++ descriptionBlock (pySplit doc '@') :: B ∧
      ∀ b ∈ D, ∃ s, b = Block.quote (.text s) := by
  rcases generate_ok_decomp n cname doc bs hdoc hok with ⟨order, dep, _, rfl⟩
  refine ⟨depBlocks dep,
    seeBlocks (pySplit doc '@') ++ [imgBlock n cname]
      ++ sectionBlocks order (pySplit doc '@') ++ [sourcesBlock n],
    ?_, fun b hb => mem_depBlocks hb⟩
  simp [List.append_assoc]

/-- A docstring none of whose fragments is recognised produces exactly the
description paragraph, the image and the sources paragraph. -/
theorem generate_no_tags (n : NodeItem) (cname doc : String)
    (hdoc : n.doc = some doc)
    (hno : ∀ p ∈ pySplit doc '@', partKind p = none ∧ isSeeFragment p = false ∧
      pyStartsWith p "deprecated " = false) :
    generate_node_documentation n cname =
      .ok [descriptionBlock (pySplit doc '@'), imgBlock n cname, sourcesBlock n] := by
  simp only [generate_node_documentation, hdoc]
  rw [loop2_no_tags (pySplit doc '@') [] none
    (fun p hp => ⟨(hno p hp).1, (hno p hp).2.2⟩)]
  have hsee : seeBlocks (pySplit doc '@') = [] := by
    unfold seeBlocks
    rw [seeItems_eq_nil (fun p hp => (hno p hp).2.1)]
    rfl
  rw [hsee]
  rfl

/-! ## The claims -/

/-- The failing input of C1: a docstring with an `input` tag whose payload
has no colon separator. -/
def cexNodeC1 : NodeItem :=
  ⟨"LN_OnInit", "On Init", "LNOnInitNode", "arm.logicnode.event.LN_on_init",
    some "Triggered on init.@input NoColonHere"⟩

/-- C1: the spec requires a malformed `input`/`output`/`option` tag
(missing colon separator) to be skipped gracefully without aborting the
node or the run.  The code instead lets the tuple unpacking of
`part[6:].split(":", 1)` raise an uncaught `ValueError`: on the docstring
`"Triggered on init.@input NoColonHere"` the node's processing aborts, and
with it the whole run (no output is written). -/
theorem C1_malformed_tag_aborts_run :
    generate_node_documentation cexNodeC1 "Event" = .error () ∧
    runBlocks ⟨[("event", [⟨"Event", "", [cexNodeC1], []⟩])]⟩ "2020.9" = .error () := by
  constructor
  · decide
  · decide

/-- The C2 counterexample node: its docstring is absent. -/
def cexNodeC2 : NodeItem :=
  ⟨"LN_GateNode", "Gate", "LNGateNode", "arm.logicnode.logic.LN_gate", none⟩

/-- C2 counterexample: for a node with an absent docstring the emitted
subtree is the node header alone — it contains no image block, while the
claim says header and image. -/
theorem C2_cex_no_image_for_absent_docstring :
    nodesBlocks "Logic" [cexNodeC2] = .ok [Block.header 3 "Gate"] ∧
    ([Block.header 3 "Gate"] : List Block).all (fun b => !isImageBlock b) = true := by
  constructor
  · decide
  · decide

/-- C2 (amended): for every node whose docstring is absent,
`generate_node_documentation` emits nothing at all — the node subtree is
the node header only, with no image block, no sources paragraph and no
sections; this is not an error. -/
theorem C2_amended_absent_docstring_header_only (n : NodeItem) (cname : String)
    (h : n.doc = none) :
    generate_node_documentation n cname = .ok [] ∧
    nodesBlocks cname [n] = .ok [Block.header 3 n.label] := by
  constructor
  · simp [generate_node_documentation, h]
  · simp [nodesBlocks, generate_node_documentation, h]

/-- Witness for C2 (amended) at a concrete node. -/
theorem C2_amended_witness :
    generate_node_documentation ⟨"LN_X", "X", "LNX", "m.a.b", none⟩ "Logic" = .ok [] ∧
    nodesBlocks "Logic" [⟨"LN_X", "X", "LNX", "m.a.b", none⟩] =
      .ok [Block.header 3 "X"] :=
  C2_amended_absent_docstring_header_only ⟨"LN_X", "X", "LNX", "m.a.b", none⟩ "Logic" rfl

/-- The C5 counterexample node: an empty docstring (empty description, zero
tags). -/
def cexNodeC5 : NodeItem :=
  ⟨"LN_Print", "Print", "LNPrintNode", "arm.logicnode.miscellaneous.LN_print",
    some ""⟩

/-- C5 counterexample: for an empty docstring the code still emits the
description paragraph — as an empty `Paragraph("")` — so the zero-tag
subtree is description paragraph + image + sources, not just image +
sources as the claim states. -/
theorem C5_cex_empty_description_paragraph_emitted :
    generate_node_documentation cexNodeC5 "Miscellaneous" = .ok
      [Block.para (.text ""),
       Block.image
         "https://github.com/armory3d/armory_wiki_images/raw/master/logic_nodes/miscellaneous/LN_Print.jpg"
         "Print node",
       Block.para (.text
         "**Sources:** [Python](https://github.com/armory3d/armory/blob/master/blender/arm/logicnode/miscellaneous/LN_print.py) | [Haxe](https://github.com/armory3d/armory/blob/master/Sources/armory/logicnode/PrintNode.hx)")] ∧
    Block.para (.text "") ∈
      [Block.para (.text ""),
       Block.image
         "https://github.com/armory3d/armory_wiki_images/raw/master/logic_nodes/miscellaneous/LN_Print.jpg"
         "Print node",
       Block.para (.text
         "**Sources:** [Python](https://github.com/armory3d/armory/blob/master/blender/arm/logicnode/miscellaneous/LN_print.py) | [Haxe](https://github.com/armory3d/armory/blob/master/Sources/armory/logicnode/PrintNode.hx)")] := by
  constructor
  · decide
  · decide

/-- C5 (amended): in EVERY successfully processed docstring — tagged or
not, and in particular when the text before the first `@` is empty or all
whitespace so that the paragraph is an empty `Paragraph("")` — the
description paragraph is emitted, directly after the (quote-only)
deprecation area; and a docstring none of whose fragments is recognised as
a tag (the leading fragment included) yields exactly the description
paragraph, the image and the sources paragraph. -/
theorem C5_amended_description_paragraph_always_emitted (n : NodeItem)
    (cname doc : String) (bs : List Block) (hdoc : n.doc = some doc)
    (hok : generate_node_documentation n cname = .ok bs) :
    (∃ D B, bs = D ++ descriptionBlock (pySplit doc '@') :: B ∧
      ∀ b ∈ D, ∃ s, b = Block.quote (.text s)) ∧
    ((∀ p ∈ pySplit doc '@', partKind p = none ∧ isSeeFragment p = false ∧
        pyStartsWith p "deprecated " = false) →
      bs = [descriptionBlock (pySplit doc '@'), imgBlock n cname, sourcesBlock n]) := by
  constructor
  · exact generate_ok_desc_decomp n cname doc bs hdoc hok
  · intro hno
    have h2 := generate_no_tags n cname doc hdoc hno
    rw [hok] at h2
    simp only [Except.ok.injEq] at h2
    exact h2

/-- C5 witness fixture: an empty description followed by an `input` tag. -/
def wNodeC5 : NodeItem :=
  ⟨"LN_W5", "W5", "LNW5", "a.b.c.d", some "@input A: a"⟩

/-- Witness for C5 (amended) at the docstring `"@input A: a"`, whose
description part is empty and which nevertheless carries a tag. -/
theorem C5_amended_witness :
    (∃ D B, okBlocks (generate_node_documentation wNodeC5 "Logic") =
      D ++ descriptionBlock (pySplit "@input A: a" '@') :: B ∧
      ∀ b ∈ D, ∃ s, b = Block.quote (.text s)) ∧
    ((∀ p ∈ pySplit "@input A: a" '@', partKind p = none ∧
        isSeeFragment p = false ∧ pyStartsWith p "deprecated " = false) →
      okBlocks (generate_node_documentation wNodeC5 "Logic") =
        [descriptionBlock (pySplit "@input A: a" '@'), imgBlock wNodeC5 "Logic",
         sourcesBlock wNodeC5]) :=
  C5_amended_description_paragraph_always_emitted wNodeC5 "Logic" "@input A: a"
    (okBlocks (generate_node_documentation wNodeC5 "Logic")) rfl (by decide)

/-- The deprecation links loop keeps exactly the non-empty comma pieces, in
order, each rendered as a node link. -/
theorem collectAltLinks_eq (l : List String) :
    collectAltLinks l = (l.filter (· ≠ "")).map make_node_link_str := by
  induction l with
  | nil => rfl
  | cons a rest ih =>
    unfold collectAltLinks
    by_cases ha : a = ""
    · rw [if_pos ha, List.filter_cons_of_neg (by simp [ha]), ih]
    · rw [if_neg ha, List.filter_cons_of_pos (by simp [ha]), List.map_cons, ih]

theorem append_dot_space (x m : String) :
    x ++ "." ++ " " ++ m = x ++ (". " ++ m) := by
  have h : ("." : String) ++ " " = ". " := by decide
  rw [String.append_assoc x "." " ", h, String.append_assoc]

/-- C9: a `deprecated <alts>:<message>` tag renders the fixed deprecation
boilerplate followed by — exactly when at least one non-empty alternative
remains after splitting the alternatives part on commas and dropping empty
entries — the "Please use the following node(s) instead:" sentence with the
alternatives linked in their original order, ending in a period, before the
(normalised) message; with no surviving alternative the boilerplate is
followed by just the message. -/
theorem C9_deprecated_notice (alternatives message : String) :
    deprecationText alternatives message =
      boldStr "DEPRECATED."
        ++ " This node is deprecated and will be removed in future versions of Armory. "
        ++ (if ((pySplit alternatives ',').filter (· ≠ "")).isEmpty then
              normMessage message
            else
              "Please use the following node(s) instead: "
                ++ pyJoin ", "
                    (((pySplit alternatives ',').filter (· ≠ "")).map make_node_link_str)
                ++ (". " ++ normMessage message)) := by
  simp only [deprecationText]
  rw [collectAltLinks_eq]
  by_cases hl : ((pySplit alternatives ',').filter (· ≠ "")).isEmpty = true
  · rw [List.isEmpty_iff] at hl
    rw [hl]
    simp
  · have hne : (pySplit alternatives ',').filter (· ≠ "") ≠ [] := by
      intro h
      exact hl (by rw [h]; rfl)
    have hlen : (((pySplit alternatives ',').filter (· ≠ "")).map make_node_link_str).length > 0 := by
      rw [List.length_map]
      exact List.length_pos.mpr hne
    rw [if_pos hlen, if_neg hl]
    congr 1
    exact append_dot_space _ _

/-- C10 helper fixture. -/
def wNodeC10 : NodeItem :=
  ⟨"XX_Custom", "Custom", "XXCustomThing", "a.b.c.d.e", some "Hello"⟩

/-- C10: whenever a node's docstring is processed successfully, the final
block of the subtree is the "Sources:" paragraph; its Haxe link removes
exactly the first two characters of the internal type identifier
(`bl_idname`) unconditionally and appends ".hx", and its Python link joins
the module path's dot components from the third onward with "/" and appends
".py". -/
theorem C10_sources_paragraph_last (n : NodeItem) (cname doc : String)
    (bs : List Block) (hdoc : n.doc = some doc)
    (hok : generate_node_documentation n cname = .ok bs) :
    bs.getLast? = some (.para (.text (boldStr "Sources:" ++ " "
      ++ linkStr "Python"
          (PY_NODE_DIR ++ (pyJoin "/" ((pySplit n.module '.').drop 2) ++ ".py"))
      ++ " | "
      ++ linkStr "Haxe" (HX_NODE_DIR ++ (pyDrop n.bl_idname 2 ++ ".hx"))))) := by
  rcases generate_ok_decomp n cname doc bs hdoc hok with ⟨order, dep, _, rfl⟩
  rw [← sourcesBlock_eq]
  exact List.getLast?_concat _

/-- Witness for C10 at a node whose identifier does not carry the "LN"
prefix: the first two characters are dropped all the same. -/
theorem C10_witness :
    (okBlocks (generate_node_documentation wNodeC10 "Logic")).getLast? =
      some (.para (.text (boldStr "Sources:" ++ " "
        ++ linkStr "Python"
            (PY_NODE_DIR ++ (pyJoin "/" ((pySplit wNodeC10.module '.').drop 2) ++ ".py"))
        ++ " | "
        ++ linkStr "Haxe" (HX_NODE_DIR ++ (pyDrop wNodeC10.bl_idname 2 ++ ".hx"))))) :=
  C10_sources_paragraph_last wNodeC10 "Logic" "Hello"
    (okBlocks (generate_node_documentation wNodeC10 "Logic")) rfl (by decide)

/-- The C6 counterexample registry: one section holding just one category
with zero active and zero deprecated nodes. -/
def cexRegC6 : Registry :=
  ⟨[("basic", [⟨"Empty", "A category with no nodes.", [], []⟩])]⟩

/-- C6 counterexample: a category with zero nodes is NOT omitted — it
appears in the "Node Categories" listing (the check is on the section's
category count, not on node counts) and its header is emitted in the main
category pass. -/
theorem C6_cex_empty_category_not_omitted :
    CatListItem.ulist [Inline.link (.text "Empty") "#empty"] ∈
      categoryListingItems cexRegC6.sections ∧
    Block.header 2 "Empty" ∈ okBlocks (runBlocks cexRegC6 "2020.9") := by
  constructor
  · decide
  · decide

/-- C6 (amended): every category of every listed section — with zero nodes
or not — gets its anchor link in the "Node Categories" listing (only
sections with an empty category list are skipped), and in the main category
pass a category with zero active and zero deprecated nodes still emits its
header and its optional description, followed by no node subtrees. -/
theorem C6_amended_empty_category_rendered :
    (∀ (sections : List (String × List ArmNodeCategory)) (sname : String)
        (cats : List ArmNodeCategory) (c : ArmNodeCategory),
        (sname, cats) ∈ sections → c ∈ cats →
        ∃ items, CatListItem.ulist items ∈ categoryListingItems sections ∧
          Inline.link (.text c.name) (get_anchor c.name) ∈ items) ∧
    (∀ category : ArmNodeCategory, category.nodes = [] →
        category.deprecated_nodes = [] →
        categoryBlocks category = .ok (Block.header 2 category.name ::
          (if category.description ≠ "" then
            [Block.para (.text category.description)]
          else []))) := by
  constructor
  · intro sections sname cats c hsec hc
    refine ⟨cats.map (fun c => .link (.text c.name) (get_anchor c.name)), ?_, ?_⟩
    · unfold categoryListingItems
      apply List.mem_flatMap.mpr
      refine ⟨(sname, cats), hsec, ?_⟩
      have hlen : cats.length > 0 := List.length_pos.mpr (List.ne_nil_of_mem hc)
      rw [if_pos hlen]
      exact List.mem_cons.mpr (.inr (List.mem_cons_self _ _))
    · exact List.mem_map.mpr ⟨c, hc, rfl⟩
  · intro category h1 h2
    unfold categoryBlocks
    have hs : sortNodes category = [] := by
      unfold sortNodes
      rw [h1, h2]
      rfl
    rw [hs]
    simp [nodesBlocks]

/-- Witness for C6 (amended) at a concrete one-category registry. -/
theorem C6_amended_witness :
    (∃ items, CatListItem.ulist items ∈
        categoryListingItems [("basic", [⟨"Solo", "", [], []⟩])] ∧
      Inline.link (.text "Solo") (get_anchor "Solo") ∈ items) ∧
    categoryBlocks ⟨"Solo", "", [], []⟩ = .ok [Block.header 2 "Solo"] :=
  ⟨C6_amended_empty_category_rendered.1 [("basic", [⟨"Solo", "", [], []⟩])]
      "basic" [⟨"Solo", "", [], []⟩] ⟨"Solo", "", [], []⟩
      (List.mem_singleton.mpr rfl) (List.mem_singleton.mpr rfl),
    C6_amended_empty_category_rendered.2 ⟨"Solo", "", [], []⟩ rfl rfl⟩

/-! ### C8: node ordering in a category -/

theorem charListLe_iff : ∀ x y : List Char, charListLe x y = true ↔ x ≤ y := by
  intro x
  induction x with
  | nil =>
    intro y
    simp only [charListLe]
    constructor
    · intro _
      cases y with
      | nil => exact le_refl _
      | cons d ds => exact le_of_lt (List.nil_lt_cons d ds)
    · intro _
      trivial
  | cons c cs ih =>
    intro y
    cases y with
    | nil =>
      simp only [charListLe]
      constructor
      · intro h
        cases h
      · intro h
        exfalso
        rcases lt_or_eq_of_le h with hlt | heq
        · cases hlt
        · cases heq
    | cons d ds =>
      simp only [charListLe]
      by_cases hcd : c = d
      · subst hcd
        rw [if_pos rfl, ih ds]
        constructor
        · intro h
          rcases lt_or_eq_of_le h with hlt | heq
          · exact le_of_lt (List.Lex.cons hlt)
          · rw [heq]
        · intro h
          rcases lt_or_eq_of_le h with hlt | heq
          · cases hlt with
            | cons h' => exact le_of_lt h'
            | rel h' => exact absurd h' (lt_irrefl c)
          · injection heq with h1 h2
            rw [h2]
      · rw [if_neg hcd]
        constructor
        · intro h
          exact le_of_lt (List.Lex.rel (of_decide_eq_true h))
        · intro h
          apply decide_eq_true
          rcases lt_or_eq_of_le h with hlt | heq
          · cases hlt with
            | cons h' => exact absurd rfl hcd
            | rel h' => exact h'
          · injection heq with h1 h2
            exact absurd h1 hcd

/-- The embedded sort key order is the `≤` of the labels. -/
theorem labelLe_iff (a b : NodeItem) : labelLe a b = true ↔ a.label ≤ b.label := by
  rw [labelLe, charListLe_iff, String.le_iff_toList_le]
  rfl

instance : IsTotal NodeItem (fun a b => labelLe a b = true) :=
  ⟨fun a b => by
    rcases le_total a.label b.label with h | h
    · exact .inl ((labelLe_iff a b).mpr h)
    · exact .inr ((labelLe_iff b a).mpr h)⟩

instance : IsTrans NodeItem (fun a b => labelLe a b = true) :=
  ⟨fun a b c hab hbc => (labelLe_iff a c).mpr
    (le_trans ((labelLe_iff a b).mp hab) ((labelLe_iff b c).mp hbc))⟩

/-- No block of a node's `generate_node_documentation` output is a header;
the only node header is the one `run()` adds before calling it. -/
theorem generate_ok_no_header3 (n : NodeItem) (cname : String) (bs : List Block)
    (hok : generate_node_documentation n cname = .ok bs) :
    ∀ b ∈ bs, headerLabel3 b = none := by
  intro b hb
  cases hdoc : n.doc with
  | none =>
    unfold generate_node_documentation at hok
    rw [hdoc] at hok
    simp only [Except.ok.injEq] at hok
    rw [← hok] at hb
    cases hb
  | some doc =>
    rcases generate_ok_decomp n cname doc bs hdoc hok with ⟨order, dep, _, rfl⟩
    rcases List.mem_append.mp hb with hb | hb
    rcases List.mem_append.mp hb with hb | hb
    rcases List.mem_append.mp hb with hb | hb
    rcases List.mem_append.mp hb with hb | hb
    rcases List.mem_append.mp hb with hb | hb
    · rcases mem_depBlocks hb with ⟨s, rfl⟩
      rfl
    · rcases List.mem_singleton.mp hb with rfl
      rfl
    · rcases mem_seeBlocks hb with rfl | ⟨its, rfl⟩
      · rfl
      · rfl
    · rcases List.mem_singleton.mp hb with rfl
      rfl
    · rcases mem_sectionBlocks hb with ⟨k, _, rfl⟩ | ⟨its, rfl⟩
      · cases k <;> rfl
      · rfl
    · rcases List.mem_singleton.mp hb with rfl
      rw [sourcesBlock_eq]
      rfl

/-- The node headers of a node list's blocks are exactly the labels, in
order. -/
theorem nodesBlocks_labels (cname : String) :
    ∀ (ns : List NodeItem) (bs : List Block), nodesBlocks cname ns = .ok bs →
      bs.filterMap headerLabel3 = ns.map (fun n => n.label) := by
  intro ns
  induction ns with
  | nil =>
    intro bs h
    simp only [nodesBlocks, Except.ok.injEq] at h
    rw [← h]
    rfl
  | cons n rest ih =>
    intro bs h
    simp only [nodesBlocks] at h
    cases hg : generate_node_documentation n cname with
    | error e => rw [hg] at h; cases h
    | ok gbs =>
      rw [hg] at h
      cases hr : nodesBlocks cname rest with
      | error e => rw [hr] at h; cases h
      | ok bss =>
        rw [hr] at h
        simp only [Except.ok.injEq] at h
        rw [← h, List.cons_append, List.filterMap_cons]
        have hnone : gbs.filterMap headerLabel3 = [] :=
          List.filterMap_eq_nil_iff.mpr (generate_ok_no_header3 n cname gbs hg)
        rw [List.filterMap_append, hnone, show headerLabel3 (Block.header 3 n.label) =
          some n.label from rfl, List.nil_append, ih bss hr, List.map_cons]

/-- C8: within a category the active and the deprecated nodes are merged
into one sequence that is sorted alphabetically by label (the registry's
declared per-category order is discarded — the result is merely a
permutation of the declared lists), and the emitted node headers follow
exactly that merged sorted order. -/
theorem C8_nodes_merged_sorted_by_label (category : ArmNodeCategory) :
    (sortNodes category).Perm (category.nodes ++ category.deprecated_nodes) ∧
    (sortNodes category).Sorted (fun a b => a.label ≤ b.label) ∧
    (∀ bs, categoryBlocks category = .ok bs →
      bs.filterMap headerLabel3 = (sortNodes category).map (fun n => n.label)) := by
  refine ⟨List.perm_insertionSort _ _,
    (List.sorted_insertionSort _ _).imp (fun h => (labelLe_iff _ _).mp h), ?_⟩
  intro bs h
  unfold categoryBlocks at h
  cases hr : nodesBlocks category.name (sortNodes category) with
  | error e => rw [hr] at h; cases h
  | ok nbs =>
    rw [hr] at h
    simp only [Except.ok.injEq] at h
    rw [← h, List.filterMap_cons]
    have h2 : headerLabel3 (Block.header 2 category.name) = none := rfl
    rw [h2, List.filterMap_append]
    have hdesc : (if category.description ≠ "" then
        [Block.para (.text category.description)] else []).filterMap headerLabel3 = [] := by
      by_cases hd : category.description ≠ ""
      · rw [if_pos hd]; rfl
      · rw [if_neg hd]; rfl
    rw [hdesc, List.nil_append]
    exact nodesBlocks_labels category.name (sortNodes category) nbs hr

/-- C8 fixture: a deprecated node (label "Alpha") interleaves before an
active node (label "Zulu"). -/
def catW8 : ArmNodeCategory :=
  ⟨"Logic", "",
    [⟨"LN_Zulu", "Zulu", "LNZulu", "a.b.c.z", some "Z node."⟩],
    [⟨"LN_Alpha", "Alpha", "LNAlpha", "a.b.c.a", some "A node."⟩]⟩

/-- Witness for C8 at a concrete category. -/
theorem C8_witness :
    (sortNodes catW8).Perm (catW8.nodes ++ catW8.deprecated_nodes) ∧
    (sortNodes catW8).Sorted (fun a b => a.label ≤ b.label) ∧
    (okBlocks (categoryBlocks catW8)).filterMap headerLabel3 =
      (sortNodes catW8).map (fun n => n.label) :=
  ⟨(C8_nodes_merged_sorted_by_label catW8).1,
   (C8_nodes_merged_sorted_by_label catW8).2.1,
   (C8_nodes_merged_sorted_by_label catW8).2.2 _ (by decide)⟩

/-! ### C3: placement of the image and of the section headers -/

/-- The C3 counterexample docstring: an `input` tag textually before a
`see` tag. -/
def cexNodeC3 : NodeItem :=
  ⟨"LN_T3", "T3", "LNT3", "a.b.l.t3", some "One@input A: a@see Other"⟩

/-- C3 counterexample: on `"One@input A: a@see Other"` the "See also:"
header is placed BEFORE the image (so the image does not precede every
section), and although the first `input` tag appears before the first `see`
tag in the text, the Inputs header is emitted after the See-also header (so
cross-kind header order does not follow first appearance). -/
theorem C3_cex_image_after_see_section :
    ((okBlocks (generate_node_documentation cexNodeC3 "Logic")).findIdx
        (fun b => b == seeHdr) <
      (okBlocks (generate_node_documentation cexNodeC3 "Logic")).findIdx
        isImageBlock) ∧
    ((okBlocks (generate_node_documentation cexNodeC3 "Logic")).findIdx
        isImageBlock <
      (okBlocks (generate_node_documentation cexNodeC3 "Logic")).findIdx
        (fun b => b == kindHdr .input)) ∧
    ((pySplit "One@input A: a@see Other" '@').findIdx
        (fun p => partKind p == some TagKind.input) <
      (pySplit "One@input A: a@see Other" '@').findIdx isSeeFragment) := by
  refine ⟨by decide, by decide, by decide⟩

/-- C3 (amended): a successful node subtree decomposes as: deprecation
area (quote blocks only), then the description paragraph, then the See-also
section (present exactly when some fragment is a see-fragment — the
see/seeNode loop runs before the image is added), then the image block,
then everything else; the Inputs/Outputs/Options headers all lie after the
image while the See-also header does not, and among themselves the three
section headers appear exactly in the order of each kind's first tag
fragment in the text. -/
theorem C3_amended_image_between_see_and_sections (n : NodeItem)
    (cname doc : String) (bs : List Block) (hdoc : n.doc = some doc)
    (hok : generate_node_documentation n cname = .ok bs) :
    ∃ D S B, bs = D ++ descriptionBlock (pySplit doc '@')
        :: (S ++ imgBlock n cname :: B)
      ∧ (∀ b ∈ D, ∃ s, b = Block.quote (.text s))
      ∧ ((pySplit doc '@').any isSeeFragment = true →
          S = [seeHdr, Block.ulist (((pySplit doc '@').filter isSeeFragment).map seeItem)])
      ∧ ((pySplit doc '@').any isSeeFragment = false → S = [])
      ∧ (∀ k : TagKind, kindHdr k ∉ D ∧ kindHdr k ∉ S)
      ∧ seeHdr ∉ B
      ∧ (∀ k : TagKind, k ∈ kindSeq (pySplit doc '@') → kindHdr k ∈ B)
      ∧ bs.filterMap headerKindOf = firstOccList (kindSeq (pySplit doc '@')) := by
  have hfm := generate_ok_headers_firstOcc n cname doc bs hdoc hok
  rcases generate_ok_decomp n cname doc bs hdoc hok with ⟨order, dep, hl, rfl⟩
  have horder : order = firstOccList (kindSeq (pySplit doc '@')) := by
    have h := loop2_ok_order _ _ _ _ hl
    rw [foldl_addKind_firstOcc] at h
    exact h
  refine ⟨depBlocks dep, seeBlocks (pySplit doc '@'),
    sectionBlocks order (pySplit doc '@') ++ [sourcesBlock n],
    ?_, fun b hb => mem_depBlocks hb, seeBlocks_of_any, seeBlocks_of_none,
    ?_, ?_, ?_, hfm⟩
  · simp [List.append_assoc]
  · intro k
    constructor
    · intro hk
      rcases mem_depBlocks hk with ⟨s, hs⟩
      exact quote_ne_kindHdr _ k hs.symm
    · intro hk
      rcases mem_seeBlocks hk with hh | ⟨its, hh⟩
      · exact kindHdr_ne_seeHdr k hh
      · exact ulist_ne_kindHdr its k hh.symm
  · intro hmem
    rcases List.mem_append.mp hmem with hmem | hmem
    · rcases mem_sectionBlocks hmem with ⟨k, _, hh⟩ | ⟨its, hh⟩
      · exact kindHdr_ne_seeHdr k hh.symm
      · exact ulist_ne_seeHdr its hh.symm
    · have hh := List.mem_singleton.mp hmem
      exact sourcesBlock_ne_seeHdr n hh.symm
  · intro k hk
    apply List.mem_append.mpr
    left
    apply kindHdr_mem_sectionBlocks
    rw [horder]
    exact mem_firstOccList.mpr hk

/-- C3 witness fixture. -/
def wNodeC3 : NodeItem :=
  ⟨"LN_W3", "W3", "LNW3", "a.b.l.w3", some "Desc@see X@input A: a@option O: o"⟩

/-- Witness for C3 (amended) at a concrete docstring. -/
theorem C3_amended_witness :
    ∃ D S B, okBlocks (generate_node_documentation wNodeC3 "Logic")
        = D ++ descriptionBlock (pySplit "Desc@see X@input A: a@option O: o" '@')
            :: (S ++ imgBlock wNodeC3 "Logic" :: B)
      ∧ (∀ b ∈ D, ∃ s, b = Block.quote (.text s))
      ∧ ((pySplit "Desc@see X@input A: a@option O: o" '@').any isSeeFragment = true →
          S = [seeHdr, Block.ulist
            (((pySplit "Desc@see X@input A: a@option O: o" '@').filter
              isSeeFragment).map seeItem)])
      ∧ ((pySplit "Desc@see X@input A: a@option O: o" '@').any isSeeFragment = false →
          S = [])
      ∧ (∀ k : TagKind, kindHdr k ∉ D ∧ kindHdr k ∉ S)
      ∧ seeHdr ∉ B
      ∧ (∀ k : TagKind,
          k ∈ kindSeq (pySplit "Desc@see X@input A: a@option O: o" '@') →
          kindHdr k ∈ B)
      ∧ (okBlocks (generate_node_documentation wNodeC3 "Logic")).filterMap headerKindOf
          = firstOccList (kindSeq (pySplit "Desc@see X@input A: a@option O: o" '@')) :=
  C3_amended_image_between_see_and_sections wNodeC3 "Logic"
    "Desc@see X@input A: a@option O: o"
    (okBlocks (generate_node_documentation wNodeC3 "Logic")) rfl (by decide)

/-! ### C4: one header and one item list per kind -/

/-- The C4 counterexample docstring: the text before the first `@` itself
begins with `input `, so the Inputs list receives an item that comes from
no `input ` tag. -/
def cexNodeC4 : NodeItem :=
  ⟨"LN_T4", "T4", "LNT4", "a.b.l.t4", some "input D: d@input A: a"⟩

/-- C4 counterexample: the docstring `"input D: d@input A: a"` carries
exactly ONE `input` tag (tags are the fragments after the first `@`), yet
the emitted Inputs list holds TWO items — the description fragment is also
classified.  So "exactly one item per tag of that kind" fails. -/
theorem C4_cex_item_without_tag :
    ((specTagFragments "input D: d@input A: a").filter
        (fun p => partKind p == some TagKind.input)).length = 1 ∧
    Block.ulist [.text "`D`: d", .text "`A`: a"] ∈
      okBlocks (generate_node_documentation cexNodeC4 "Logic") ∧
    ([Inline.text "`D`: d", Inline.text "`A`: a"].length ≠
      ((specTagFragments "input D: d@input A: a").filter
        (fun p => partKind p == some TagKind.input)).length) := by
  refine ⟨by decide, by decide, by decide⟩

/-- C4 (amended): in a successful node subtree each section kind's header
appears exactly once if the docstring has a fragment of that kind and not
at all otherwise — where the fragments include the leading description
fragment when it itself starts with the kind's tag — and the header is
immediately followed by the kind's list holding exactly one rendered item
per fragment of that kind, in fragment order; the headers stand in the
order of each kind's first fragment (the header sequence is the kind
sequence deduplicated keeping first occurrences); likewise the See-also
header appears exactly once iff some fragment is a see-fragment, followed
by the list of all see items in order. -/
theorem C4_amended_one_header_one_item_per_fragment (n : NodeItem)
    (cname doc : String) (bs : List Block) (hdoc : n.doc = some doc)
    (hok : generate_node_documentation n cname = .ok bs) :
    (∀ k : TagKind,
      bs.countP (fun b => b == kindHdr k) =
        (if k ∈ kindSeq (pySplit doc '@') then 1 else 0) ∧
      (k ∈ kindSeq (pySplit doc '@') →
        ∃ A B, bs = A ++ kindHdr k :: Block.ulist
          (((pySplit doc '@').filter (fun p => partKind p = some k)).map
            (tagItemD k)) :: B)) ∧
    bs.countP (fun b => b == seeHdr) =
      (if (pySplit doc '@').any isSeeFragment then 1 else 0) ∧
    ((pySplit doc '@').any isSeeFragment = true →
      ∃ A B, bs = A ++ seeHdr :: Block.ulist
        (((pySplit doc '@').filter isSeeFragment).map seeItem) :: B) ∧
    bs.filterMap headerKindOf = firstOccList (kindSeq (pySplit doc '@')) := by
  have hfm := generate_ok_headers_firstOcc n cname doc bs hdoc hok
  rcases generate_ok_decomp n cname doc bs hdoc hok with ⟨order, dep, hl, rfl⟩
  have horder : order = firstOccList (kindSeq (pySplit doc '@')) := by
    have h := loop2_ok_order _ _ _ _ hl
    rw [foldl_addKind_firstOcc] at h
    exact h
  have hnodup : order.Nodup := by
    rw [horder]
    exact nodup_firstOccList _
  have hmemo : ∀ k : TagKind, k ∈ order ↔ k ∈ kindSeq (pySplit doc '@') := by
    intro k
    rw [horder]
    exact mem_firstOccList
  have hwf := loop2_ok_wf _ _ _ _ hl
  refine ⟨?_, ?_, ?_, hfm⟩
  · intro k
    constructor
    · rw [List.countP_append, List.countP_append, List.countP_append,
        List.countP_append, List.countP_append, countP_kindHdr_sectionBlocks]
      have c1 : (depBlocks dep).countP (fun b => b == kindHdr k) = 0 := by
        rw [List.countP_eq_zero]
        intro b hb
        rcases mem_depBlocks hb with ⟨s, rfl⟩
        simp [quote_ne_kindHdr _ k]
      have c2 : ([descriptionBlock (pySplit doc '@')] : List Block).countP
          (fun b => b == kindHdr k) = 0 := by
        rw [List.countP_eq_zero]
        intro b hb
        rcases List.mem_singleton.mp hb with rfl
        simp only [beq_iff_eq]
        exact textPara_ne_kindHdr _ k
      have c3 : (seeBlocks (pySplit doc '@')).countP (fun b => b == kindHdr k) = 0 := by
        rw [List.countP_eq_zero]
        intro b hb
        rcases mem_seeBlocks hb with rfl | ⟨its, rfl⟩
        · simp only [beq_iff_eq]
          exact fun h => kindHdr_ne_seeHdr k h.symm
        · simp [ulist_ne_kindHdr its k]
      have c4 : ([imgBlock n cname] : List Block).countP (fun b => b == kindHdr k) = 0 := by
        rw [List.countP_eq_zero]
        intro b hb
        rcases List.mem_singleton.mp hb with rfl
        simp only [beq_iff_eq]
        exact image_ne_kindHdr _ _ k
      have c5 : ([sourcesBlock n] : List Block).countP (fun b => b == kindHdr k) = 0 := by
        rw [List.countP_eq_zero]
        intro b hb
        rcases List.mem_singleton.mp hb with rfl
        simp [sourcesBlock_ne_kindHdr n k]
      rw [c1, c2, c3, c4, c5]
      by_cases hmem : k ∈ kindSeq (pySplit doc '@')
      · rw [if_pos hmem,
          List.count_eq_one_of_mem hnodup ((hmemo k).mpr hmem)]
      · rw [if_neg hmem,
          List.count_eq_zero_of_not_mem (fun hc => hmem ((hmemo k).mp hc))]
    · intro hmem
      rcases List.append_of_mem ((hmemo k).mpr hmem) with ⟨s, t, hst⟩
      have hitems : kindItems k (pySplit doc '@') =
          ((pySplit doc '@').filter (fun p => partKind p = some k)).map (tagItemD k) :=
        kindItems_eq_of_wf k _ (fun p hp => hwf p hp k)
      refine ⟨depBlocks dep ++ [descriptionBlock (pySplit doc '@')]
          ++ seeBlocks (pySplit doc '@') ++ [imgBlock n cname]
          ++ sectionBlocks s (pySplit doc '@'),
        sectionBlocks t (pySplit doc '@') ++ [sourcesBlock n], ?_⟩
      rw [hst]
      unfold sectionBlocks
      rw [List.flatMap_append, List.flatMap_cons, ← hitems]
      simp [List.append_assoc]
  · rw [List.countP_append, List.countP_append, List.countP_append,
      List.countP_append, List.countP_append, countP_seeHdr_sectionBlocks]
    have c1 : (depBlocks dep).countP (fun b => b == seeHdr) = 0 := by
      rw [List.countP_eq_zero]
      intro b hb
      rcases mem_depBlocks hb with ⟨s, rfl⟩
      simp [quote_ne_seeHdr]
    have c2 : ([descriptionBlock (pySplit doc '@')] : List Block).countP
        (fun b => b == seeHdr) = 0 := by
      rw [List.countP_eq_zero]
      intro b hb
      rcases List.mem_singleton.mp hb with rfl
      simp only [beq_iff_eq]
      exact textPara_ne_seeHdr _
    have c4 : ([imgBlock n cname] : List Block).countP (fun b => b == seeHdr) = 0 := by
      rw [List.countP_eq_zero]
      intro b hb
      rcases List.mem_singleton.mp hb with rfl
      simp only [beq_iff_eq]
      exact image_ne_seeHdr _ _
    have c5 : ([sourcesBlock n] : List Block).countP (fun b => b == seeHdr) = 0 := by
      rw [List.countP_eq_zero]
      intro b hb
      rcases List.mem_singleton.mp hb with rfl
      simp [sourcesBlock_ne_seeHdr n]
    rw [c1, c2, c4, c5]
    cases hany : (pySplit doc '@').any isSeeFragment with
    | true =>
      rw [seeBlocks_of_any hany]
      rw [List.countP_cons, List.countP_cons, List.countP_nil]
      simp [ulist_ne_seeHdr]
    | false =>
      rw [seeBlocks_of_none hany]
      rfl
  · intro hany
    refine ⟨depBlocks dep ++ [descriptionBlock (pySplit doc '@')],
      [imgBlock n cname] ++ sectionBlocks order (pySplit doc '@')
        ++ [sourcesBlock n], ?_⟩
    rw [seeBlocks_of_any hany]
    simp [List.append_assoc]

/-- C4 witness fixture: two `input` tags, one `output` tag, one `see`
tag. -/
def wNodeC4 : NodeItem :=
  ⟨"LN_W4", "W4", "LNW4", "a.b.l.w4",
    some "Desc@input A: a@input B: b@output O: o@see S"⟩

/-- Witness for C4 (amended) at a concrete docstring with two `input`
tags. -/
theorem C4_amended_witness :
    (∀ k : TagKind,
      (okBlocks (generate_node_documentation wNodeC4 "Logic")).countP
          (fun b => b == kindHdr k) =
        (if k ∈ kindSeq (pySplit "Desc@input A: a@input B: b@output O: o@see S" '@')
          then 1 else 0) ∧
      (k ∈ kindSeq (pySplit "Desc@input A: a@input B: b@output O: o@see S" '@') →
        ∃ A B, okBlocks (generate_node_documentation wNodeC4 "Logic") =
          A ++ kindHdr k :: Block.ulist
            (((pySplit "Desc@input A: a@input B: b@output O: o@see S" '@').filter
              (fun p => partKind p = some k)).map (tagItemD k)) :: B)) ∧
    (okBlocks (generate_node_documentation wNodeC4 "Logic")).countP
        (fun b => b == seeHdr) =
      (if (pySplit "Desc@input A: a@input B: b@output O: o@see S" '@').any isSeeFragment
        then 1 else 0) ∧
    ((pySplit "Desc@input A: a@input B: b@output O: o@see S" '@').any isSeeFragment = true →
      ∃ A B, okBlocks (generate_node_documentation wNodeC4 "Logic") =
        A ++ seeHdr :: Block.ulist
          (((pySplit "Desc@input A: a@input B: b@output O: o@see S" '@').filter
            isSeeFragment).map seeItem) :: B) ∧
    (okBlocks (generate_node_documentation wNodeC4 "Logic")).filterMap headerKindOf =
      firstOccList (kindSeq (pySplit "Desc@input A: a@input B: b@output O: o@see S" '@')) :=
  C4_amended_one_header_one_item_per_fragment wNodeC4 "Logic"
    "Desc@input A: a@input B: b@output O: o@see S"
    (okBlocks (generate_node_documentation wNodeC4 "Logic")) rfl (by decide)

/-! ### C7: the text before the first delimiter -/

/-- The C7 counterexample docstring: the description text itself begins
with `see `. -/
def cexNodeC7 : NodeItem :=
  ⟨"LN_T7", "T7", "LNT7", "a.b.l.t7", some "see Wikipedia for details.@input A: a"⟩

/-- C7 counterexample: the docstring
`"see Wikipedia for details.@input A: a"` has NO see tag among its
`@`-fragments, yet the subtree carries a "See also:" section whose item is
rendered from the leading description text — the pre-`@` text IS
additionally classified as a tag. -/
theorem C7_cex_leading_text_classified :
    ((specTagFragments "see Wikipedia for details.@input A: a").filter
      isSeeFragment) = [] ∧
    seeHdr ∈ okBlocks (generate_node_documentation cexNodeC7 "Logic") ∧
    Block.ulist [Inline.italic (.text "Wikipedia for details.")] ∈
      okBlocks (generate_node_documentation cexNodeC7 "Logic") := by
  refine ⟨by decide, by decide, by decide⟩

/-- C7 (amended): the text before the first `@` always contributes the
description paragraph, but it is additionally fed through both tag loops,
for EVERY recognized tag text: leading `seeNode `/`see ` text adds a
See-also item rendered from the description text; leading
`input `/`output `/`option ` text adds an item to that kind's section when
its payload has a colon and aborts the whole run when it has none; leading
`deprecated ` text likewise aborts on a missing colon and otherwise fills
the deprecation notice from the description text (when no later
`deprecated` tag overwrites it). -/
theorem C7_amended_description_also_tag_classified (n : NodeItem)
    (cname doc : String) (p₀ : String) (rest : List String)
    (hdoc : n.doc = some doc) (hparts : pySplit doc '@' = p₀ :: rest) :
    (∀ bs, generate_node_documentation n cname = .ok bs →
      Block.para (.text (normWs (rstripNewlines p₀))) ∈ bs) ∧
    (∀ bs, generate_node_documentation n cname = .ok bs →
      pyStartsWith p₀ "seeNode " = true →
      seeHdr ∈ bs ∧
      Block.ulist (Inline.italic (make_node_link (pyRstrip (pyDrop p₀ 8)))
        :: seeItems rest) ∈ bs) ∧
    (∀ bs, generate_node_documentation n cname = .ok bs →
      pyStartsWith p₀ "seeNode " = false → pyStartsWith p₀ "see " = true →
      seeHdr ∈ bs ∧
      Block.ulist (Inline.italic (.text (pyRstrip (pyDrop p₀ 4)))
        :: seeItems rest) ∈ bs) ∧
    (∀ bs (k : TagKind), generate_node_documentation n cname = .ok bs →
      partKind p₀ = some k →
      kindHdr k ∈ bs ∧
      Block.ulist (tagItemD k p₀ ::
        ((rest.filter (fun p => partKind p = some k)).map (tagItemD k))) ∈ bs) ∧
    (∀ k : TagKind, partKind p₀ = some k →
      splitFirstColon (pyDrop p₀ (kindDropLen k)) = none →
      generate_node_documentation n cname = .error ()) ∧
    (pyStartsWith p₀ "deprecated " = true →
      splitFirstColon (pyDrop p₀ 11) = none →
      generate_node_documentation n cname = .error ()) ∧
    (∀ bs alts msg, generate_node_documentation n cname = .ok bs →
      pyStartsWith p₀ "deprecated " = true →
      splitFirstColon (pyDrop p₀ 11) = some (alts, msg) →
      (∀ p ∈ rest, pyStartsWith p "deprecated " = false) →
      Block.quote (.text (deprecationText alts msg)) ∈ bs) := by
  refine ⟨?_, ?_, ?_, ?_, ?_, ?_, ?_⟩
  · -- the description paragraph is always present
    intro bs hok
    rcases generate_ok_decomp n cname doc bs hdoc hok with ⟨order, dep, hl, rfl⟩
    rw [hparts]
    have hdesc : Block.para (.text (normWs (rstripNewlines p₀))) =
        descriptionBlock (p₀ :: rest) := rfl
    rw [hdesc]
    exact List.mem_append.mpr (.inl (List.mem_append.mpr (.inl
      (List.mem_append.mpr (.inl (List.mem_append.mpr (.inl
        (List.mem_append.mpr (.inr (List.mem_singleton.mpr rfl))))))))))
  · -- leading `seeNode ` text
    intro bs hok ha
    rcases generate_ok_decomp n cname doc bs hdoc hok with ⟨order, dep, hl, rfl⟩
    rw [hparts]
    have hfrag : isSeeFragment p₀ = true := by
      unfold isSeeFragment
      rw [ha]
      simp
    have hsee2 : seeBlocks (p₀ :: rest) =
        [seeHdr, .ulist (Inline.italic (make_node_link (pyRstrip (pyDrop p₀ 8)))
          :: seeItems rest)] := by
      have hitems : seeItems (p₀ :: rest) =
          Inline.italic (make_node_link (pyRstrip (pyDrop p₀ 8))) :: seeItems rest := by
        unfold seeItems seeItem
        rw [List.filterMap_cons]
        simp [hfrag, ha]
      unfold seeBlocks
      rw [hitems]
      rfl
    constructor
    · exact List.mem_append.mpr (.inl (List.mem_append.mpr (.inl
        (List.mem_append.mpr (.inl (List.mem_append.mpr (.inr
          (by rw [hsee2]; exact List.mem_cons_self _ _))))))))
    · exact List.mem_append.mpr (.inl (List.mem_append.mpr (.inl
        (List.mem_append.mpr (.inl (List.mem_append.mpr (.inr
          (by rw [hsee2]
              exact List.mem_cons_of_mem _ (List.mem_singleton.mpr rfl)))))))))
  · -- leading `see ` text
    intro bs hok h0 h1
    rcases generate_ok_decomp n cname doc bs hdoc hok with ⟨order, dep, hl, rfl⟩
    rw [hparts]
    have hfrag : isSeeFragment p₀ = true := by
      unfold isSeeFragment
      rw [h1]
      simp
    have hsee2 : seeBlocks (p₀ :: rest) =
        [seeHdr, .ulist (Inline.italic (.text (pyRstrip (pyDrop p₀ 4)))
          :: seeItems rest)] := by
      have hitems : seeItems (p₀ :: rest) =
          Inline.italic (.text (pyRstrip (pyDrop p₀ 4))) :: seeItems rest := by
        unfold seeItems seeItem
        rw [List.filterMap_cons]
        simp [hfrag, h0]
      unfold seeBlocks
      rw [hitems]
      rfl
    constructor
    · exact List.mem_append.mpr (.inl (List.mem_append.mpr (.inl
        (List.mem_append.mpr (.inl (List.mem_append.mpr (.inr
          (by rw [hsee2]; exact List.mem_cons_self _ _))))))))
    · exact List.mem_append.mpr (.inl (List.mem_append.mpr (.inl
        (List.mem_append.mpr (.inl (List.mem_append.mpr (.inr
          (by rw [hsee2]
              exact List.mem_cons_of_mem _ (List.mem_singleton.mpr rfl)))))))))
  · -- leading `input `/`output `/`option ` text with a colon
    intro bs k hok hk
    rcases generate_ok_decomp n cname doc bs hdoc hok with ⟨order, dep, hl, rfl⟩
    rw [hparts] at hl ⊢
    have hwf := loop2_ok_wf _ _ _ _ hl
    have hkseq : k ∈ kindSeq (p₀ :: rest) := by
      simp [kindSeq, List.filterMap_cons, hk]
    have horder : order = firstOccList (kindSeq (p₀ :: rest)) := by
      have h := loop2_ok_order _ _ _ _ hl
      rw [foldl_addKind_firstOcc] at h
      exact h
    have hkord : k ∈ order := by
      rw [horder]
      exact mem_firstOccList.mpr hkseq
    have hitems2 : kindItems k (p₀ :: rest) = tagItemD k p₀ ::
        ((rest.filter (fun p => partKind p = some k)).map (tagItemD k)) := by
      rw [kindItems_eq_of_wf k (p₀ :: rest) (fun p hp => hwf p hp k),
        List.filter_cons_of_pos (by simp [hk]), List.map_cons]
    constructor
    · exact List.mem_append.mpr (.inl (List.mem_append.mpr (.inr
        (kindHdr_mem_sectionBlocks hkord))))
    · have hu : Block.ulist (kindItems k (p₀ :: rest)) ∈
          sectionBlocks order (p₀ :: rest) := by
        unfold sectionBlocks
        exact List.mem_flatMap.mpr
          ⟨k, hkord, List.mem_cons_of_mem _ (List.mem_singleton.mpr rfl)⟩
      rw [← hitems2]
      exact List.mem_append.mpr (.inl (List.mem_append.mpr (.inr hu)))
  · -- leading `input `/`output `/`option ` text without a colon: abort
    intro k hk hsplit
    simp only [generate_node_documentation, hdoc]
    rw [hparts]
    simp only [kindDropLen] at hsplit
    suffices hl2 : loop2 (p₀ :: rest) [] none = .error () by rw [hl2]
    cases k with
    | input =>
      have h1 := partKind_input_facts hk
      simp only [loop2, h1, if_true]
      rw [hsplit]
    | output =>
      obtain ⟨h1, h2⟩ := partKind_output_facts hk
      simp only [loop2, h1, Bool.false_eq_true, if_false, h2, if_true]
      rw [hsplit]
    | option =>
      obtain ⟨h1, h2, h3⟩ := partKind_option_facts hk
      simp only [loop2, h1, h2, Bool.false_eq_true, if_false, h3, if_true]
      rw [hsplit]
  · -- leading `deprecated ` text without a colon: abort
    intro hdep hsplit
    obtain ⟨f1, f2, f3⟩ := startsWith_deprecated_not_kind hdep
    simp only [generate_node_documentation, hdoc]
    rw [hparts]
    suffices hl2 : loop2 (p₀ :: rest) [] none = .error () by rw [hl2]
    simp only [loop2, f1, f2, f3, Bool.false_eq_true, if_false, hdep, if_true]
    rw [hsplit]
  · -- leading `deprecated ` text with a colon fills the deprecation notice
    intro bs alts msg hok hdep hsplit hnorest
    rcases generate_ok_decomp n cname doc bs hdoc hok with ⟨order, dep, hl, rfl⟩
    rw [hparts] at hl ⊢
    obtain ⟨f1, f2, f3⟩ := startsWith_deprecated_not_kind hdep
    simp only [loop2, f1, f2, f3, Bool.false_eq_true, if_false, hdep, if_true] at hl
    rw [hsplit] at hl
    have hdepEq : dep = some (deprecationText alts msg) :=
      loop2_dep_const _ _ _ _ hl hnorest
    rw [hdepEq]
    exact List.mem_append.mpr (.inl (List.mem_append.mpr (.inl
      (List.mem_append.mpr (.inl (List.mem_append.mpr (.inl
        (List.mem_append.mpr (.inl (List.mem_singleton.mpr rfl))))))))))

/-- C7 witness fixture. -/
def wNodeC7 : NodeItem :=
  ⟨"LN_W7", "W7", "LNW7", "a.b.l.w7", some "see the manual@input A: a"⟩

/-- Witness for C7 (amended) at a concrete docstring whose description
text begins with `see `. -/
theorem C7_amended_witness :
    (∀ bs, generate_node_documentation wNodeC7 "Logic" = .ok bs →
      Block.para (.text (normWs (rstripNewlines "see the manual"))) ∈ bs) ∧
    (∀ bs, generate_node_documentation wNodeC7 "Logic" = .ok bs →
      pyStartsWith "see the manual" "seeNode " = true →
      seeHdr ∈ bs ∧
      Block.ulist (Inline.italic (make_node_link (pyRstrip (pyDrop "see the manual" 8)))
        :: seeItems ["input A: a"]) ∈ bs) ∧
    (∀ bs, generate_node_documentation wNodeC7 "Logic" = .ok bs →
      pyStartsWith "see the manual" "seeNode " = false →
      pyStartsWith "see the manual" "see " = true →
      seeHdr ∈ bs ∧
      Block.ulist (Inline.italic (.text (pyRstrip (pyDrop "see the manual" 4)))
        :: seeItems ["input A: a"]) ∈ bs) ∧
    (∀ bs (k : TagKind), generate_node_documentation wNodeC7 "Logic" = .ok bs →
      partKind "see the manual" = some k →
      kindHdr k ∈ bs ∧
      Block.ulist (tagItemD k "see the manual" ::
        ((["input A: a"].filter (fun p => partKind p = some k)).map (tagItemD k))) ∈ bs) ∧
    (∀ k : TagKind, partKind "see the manual" = some k →
      splitFirstColon (pyDrop "see the manual" (kindDropLen k)) = none →
      generate_node_documentation wNodeC7 "Logic" = .error ()) ∧
    (pyStartsWith "see the manual" "deprecated " = true →
      splitFirstColon (pyDrop "see the manual" 11) = none →
      generate_node_documentation wNodeC7 "Logic" = .error ()) ∧
    (∀ bs alts msg, generate_node_documentation wNodeC7 "Logic" = .ok bs →
      pyStartsWith "see the manual" "deprecated " = true →
      splitFirstColon (pyDrop "see the manual" 11) = some (alts, msg) →
      (∀ p ∈ ["input A: a"], pyStartsWith p "deprecated " = false) →
      Block.quote (.text (deprecationText alts msg)) ∈ bs) :=
  C7_amended_description_also_tag_classified wNodeC7 "Logic"
    "see the manual@input A: a" "see the manual" ["input A: a"] rfl (by decide)

-- scratch sanity checks (string evaluation in the kernel)
example : pySplit "a@b@@c" '@' = ["a", "b", "", "c"] := by decide
example : pySplit "" '@' = [""] := by decide
example : splitFirstColon "Value:Use the following: yes" =
    some ("Value", "Use the following: yes") := by decide
example : splitFirstColon "NoColon" = none := by decide
example : normWs "  a \n b  " = "a b" := by decide
example : pyCapitalize "baSIc" = "Basic" := by decide
example : pyStartsWith "input A: a" "input " = true := by decide
example : pyDrop "input A: a" 6 = "A: a" := by decide
example : pyLower "Logic" = "logic" := by decide
example : pyRstrip "Some Node \n" = "Some Node" := by decide

end ArmoryRef
